import Mathlib

/-!
Verification of the `lob_py` limit order book core.

Shallow embedding of `src/lob_py/core.py` (classes `PriceLevels` and
`LimitOrderBook`), `src/lob_py/order.py` (`Order`) and
`src/lob_py/events.py` (`Event`) from the Limit-Order-Book repository.

Modelling conventions:
* Python `float` prices, quantities and timestamps are modelled as `ℚ`;
  all values appearing in the scenarios are exact dyadic rationals, on
  which binary floating point arithmetic is exact.
* Python objects are mutable and aliased (the same `Order` object is held
  by a price-level deque and by the `_orders` id index).  We model object
  identity with an explicit `tag : Nat` stamped on each `Order` and keep
  the current state of every object in a `heap : List (Nat × Order)`
  association list; deques hold tags, and `_orders` maps ids to tags.
  Python's `==` on `Order` (no `__eq__`) is identity, i.e. tag equality.
* Python `dict` preserves insertion order; we model `_levels` and
  `_orders` as association lists in insertion order (`alist*` helpers).
  `dict.__setitem__` of a fresh key appends at the end.
* A raised exception (`ValueError` from `PriceLevels.add_order`,
  `KeyError` from `del`) is modelled by the `MRes.raised` result.
* The two nested `while` loops of `_match_against_book` are modelled by a
  fuel-indexed step function `matchLoop`; `MRes.fuelOut` (carrying the
  events emitted and the book state so far) is returned when the fuel is
  exhausted.  Non-termination of the Python loop is expressed as
  "for every fuel the result is `fuelOut`".
* Locks (`threading.RLock`), `user_data`, and the `_stats` dictionary are
  omitted: they do not affect any verified property (stats are write-only
  counters, locks only serialise, `user_data` is carried unchanged).
-/

set_option linter.unusedVariables false

namespace Lob

/-! ### Computable rational arithmetic

Core `Rat.add`/`Rat.sub` are `@[irreducible]`, which blocks `decide`/`rfl`
evaluation of concrete scenarios.  The embedding therefore uses its own
reducible clones, proved equal to the standard operations below, so that
general theorems can be stated and proved with ordinary `+`, `-`, `min`. -/

/-- Rational addition (same formula as `Rat.add_def'`). -/
def qadd (a b : ℚ) : ℚ := mkRat (a.num * b.den + b.num * a.den) (a.den * b.den)

/-- Rational subtraction (same formula as `Rat.sub_def'`). -/
def qsub (a b : ℚ) : ℚ := mkRat (a.num * b.den - b.num * a.den) (a.den * b.den)

/-- Python `min` (returns the first argument on ties, as `min` does). -/
def qmin (a b : ℚ) : ℚ := if a ≤ b then a else b

/-- Sum of a list of rationals. -/
def qsum : List ℚ → ℚ
  | [] => 0
  | x :: xs => qadd x (qsum xs)

/-- The literal `0.5`. -/
def qhalf : ℚ := mkRat 1 2

/-- The literal `-1`. -/
def qneg1 : ℚ := mkRat (-1) 1

theorem qadd_eq (a b : ℚ) : qadd a b = a + b := (Rat.add_def' a b).symm

theorem qsub_eq (a b : ℚ) : qsub a b = a - b := (Rat.sub_def' a b).symm

theorem qmin_eq (a b : ℚ) : qmin a b = min a b := by
  rw [qmin, min_def]

theorem qhalf_eq : qhalf = 1 / 2 := by norm_num [qhalf, Rat.mkRat_eq_div]

theorem qneg1_eq : qneg1 = -1 := by norm_num [qneg1, Rat.mkRat_eq_div]

/-- `enums.Side` -/
inductive Side where
  | BUY
  | SELL
deriving DecidableEq, Repr

/-- `enums.OrderType` -/
inductive OrderType where
  | LIMIT
  | MARKET
deriving DecidableEq, Repr

/-- `enums.TimeInForce` -/
inductive TimeInForce where
  | GTC
  | IOC
  | FOK
deriving DecidableEq, Repr

/-- `enums.OrderFlag.POST_ONLY = 1 << 0` -/
def POST_ONLY : Nat := 1

/-- `enums.OrderFlag.STP = 1 << 1` -/
def STP : Nat := 2

/-- `enums.EventType` -/
inductive EventType where
  | NEW
  | TRADE
  | CANCEL
  | DONE
  | REJECT
  | AMEND
deriving DecidableEq, Repr

/-- `order.Order`.  `tag` models Python object identity (see file header);
`user_data` is omitted. -/
structure Order where
  order_id : String
  client_id : Option String
  side : Side
  type : OrderType
  price : Option ℚ
  quantity : ℚ
  remaining_quantity : ℚ
  time_in_force : TimeInForce
  flags : Nat
  timestamp : ℚ
  tag : Nat
deriving DecidableEq, Repr

/-- `Order.has_flag`: `bool(self.flags & flag)`. -/
def Order.hasFlag (o : Order) (flag : Nat) : Bool :=
  o.flags &&& flag ≠ 0

/-- `events.Event` (the `data` dict is omitted). -/
structure Event where
  type : EventType
  order_id : Option String := none
  matched_order_id : Option String := none
  price : Option ℚ := none
  quantity : Option ℚ := none
  reason : Option String := none
  timestamp : Option ℚ := none
deriving DecidableEq, Repr

/-! ## Association lists modelling Python `dict` (insertion ordered) -/

/-- `d[k]` lookup: first entry with the given key. -/
def alistLookup {α β : Type} [DecidableEq α] : List (α × β) → α → Option β
  | [], _ => none
  | (k, v) :: rest, key => if k = key then some v else alistLookup rest key

/-- `d[k] = v`: update the existing entry in place (Python keeps the key's
insertion position), or append a fresh key at the end. -/
def alistSet {α β : Type} [DecidableEq α] : List (α × β) → α → β → List (α × β)
  | [], key, v => [(key, v)]
  | (k, w) :: rest, key, v =>
    if k = key then (k, v) :: rest else (k, w) :: alistSet rest key v

/-- `del d[k]` when the key is known to be present: drop the entry. -/
def alistErase {α β : Type} [DecidableEq α] : List (α × β) → α → List (α × β)
  | [], _ => []
  | (k, v) :: rest, key =>
    if k = key then rest else (k, v) :: alistErase rest key

/-- `list.remove(x)`: drop the first occurrence; `none` models the
`ValueError` raised when `x` is absent. -/
def listRemoveFirst {α : Type} [DecidableEq α] : List α → α → Option (List α)
  | [], _ => none
  | x :: rest, y =>
    if x = y then some rest else (listRemoveFirst rest y).map (fun r => x :: r)

/-- Python `list.insert(i, x)` (index clamped to the list length). -/
def listInsertAt {α : Type} (l : List α) (i : Nat) (x : α) : List α :=
  l.take i ++ x :: l.drop i

/-- `bisect.bisect_left(a, x)`, the exact CPython loop
(`while lo < hi: mid = (lo+hi)//2; if a[mid] < x: lo = mid+1 else hi = mid`),
with explicit fuel so that the definition is structural.  Any
`fuel ≥ hi - lo` yields the loop's result. -/
def bisectLoop (a : List ℚ) (x : ℚ) : Nat → Nat → Nat → Nat
  | 0, lo, _ => lo
  | fuel + 1, lo, hi =>
    if lo < hi then
      let mid := (lo + hi) / 2
      if a.getD mid 0 < x then bisectLoop a x fuel (mid + 1) hi
      else bisectLoop a x fuel lo mid
    else lo

/-- `bisect.bisect_left(a, x)` over the whole list. -/
def bisectLeft (a : List ℚ) (x : ℚ) : Nat :=
  bisectLoop a x a.length 0 a.length

/-- `list.sort(reverse=True)`: stable descending sort (insertion sort;
stability is irrelevant here because `_prices` holds distinct values). -/
def insertDesc (x : ℚ) : List ℚ → List ℚ
  | [] => [x]
  | y :: rest => if x ≥ y then x :: y :: rest else y :: insertDesc x rest

/-- Descending sort used by the bid-side re-sort fallback. -/
def sortDesc : List ℚ → List ℚ
  | [] => []
  | x :: rest => insertDesc x (sortDesc rest)

/-! ## `PriceLevels` -/

/-- `core.PriceLevels`: `_levels` is the price → deque-of-order-tags dict in
insertion order, `_prices` the (intendedly) sorted price list.  `_lock` is
omitted; `enable_cache` is the constructor flag. -/
structure PriceLevels where
  levels : List (ℚ × List Nat)
  prices : List ℚ
  reverse : Bool
  enable_cache : Bool
  cached_best_size : Option ℚ
  cached_best_price : Option ℚ
deriving DecidableEq, Repr

/-- `PriceLevels(reverse=..., enable_cache=True)` constructor. -/
def PriceLevels.mkEmpty (reverse : Bool) : PriceLevels :=
  { levels := [], prices := [], reverse := reverse, enable_cache := true
    cached_best_size := none, cached_best_price := none }

/-- `PriceLevels.add_order(order)` (core.py lines 39-71).  The order's tag
and price are passed explicitly; `none` result models the `ValueError`
raised when `price is None`. -/
def PriceLevels.addOrder (pl : PriceLevels) (tag : Nat) (price? : Option ℚ) :
    Option PriceLevels :=
  match price? with
  | none => none
  | some price =>
    let pl :=
      if (alistLookup pl.levels price).isSome then pl
      else
        -- self._levels[price] = deque()
        let levels := pl.levels ++ [(price, ([] : List Nat))]
        let prices :=
          if pl.reverse then
            -- idx = bisect.bisect_left(self._prices, price)
            -- self._prices.insert(len(self._prices) - idx, price)
            let idx := bisectLeft pl.prices price
            let inserted := listInsertAt pl.prices (pl.prices.length - idx) price
            -- re-sort only when the (first ≥ last) spot check fails
            if inserted.length > 1 then
              if ¬ (inserted.getD 0 0 ≥ inserted.getD (inserted.length - 1) 0) then
                sortDesc inserted
              else inserted
            else inserted
          else
            -- bisect.insort_left(self._prices, price)
            listInsertAt pl.prices (bisectLeft pl.prices price) price
        { pl with levels := levels, prices := prices }
    -- self._levels[price].append(order)
    let q := (alistLookup pl.levels price).getD []
    let pl := { pl with levels := alistSet pl.levels price (q ++ [tag]) }
    -- invalidate cache if best price changed
    if pl.enable_cache ∧ pl.prices ≠ [] ∧ pl.prices.getD 0 0 = price then
      some { pl with cached_best_size := none, cached_best_price := none }
    else some pl

/-- `PriceLevels.remove_order(price, order)` (core.py lines 73-99); removal
is by object identity (tag).  Returns `(removed, new state)`; a `ValueError`
from `deque.remove` is caught and yields `(false, unchanged)`. -/
def PriceLevels.removeOrder (pl : PriceLevels) (price : ℚ) (tag : Nat) :
    Bool × PriceLevels :=
  match alistLookup pl.levels price with
  | none => (false, pl)
  | some q =>
    match listRemoveFirst q tag with
    | none => (false, pl)  -- except ValueError: return False
    | some q' =>
      if q' = [] then
        let levels := alistErase pl.levels price
        -- self._prices.remove(price), ValueError passed over
        let prices := (listRemoveFirst pl.prices price).getD pl.prices
        let pl := { pl with levels := levels, prices := prices }
        if pl.enable_cache ∧ pl.cached_best_price = some price then
          (true, { pl with cached_best_size := none, cached_best_price := none })
        else (true, pl)
      else
        let pl := { pl with levels := alistSet pl.levels price q' }
        if pl.enable_cache ∧ pl.prices ≠ [] ∧ pl.prices.getD 0 0 = price then
          (true, { pl with cached_best_size := none })
        else (true, pl)

/-- `PriceLevels.get_best()` (core.py lines 101-107).  The `_levels[best]`
dict access cannot fail while `_prices` mirrors the keys; an out-of-sync
state would raise `KeyError` in Python, modelled by the `[]` default. -/
def PriceLevels.getBest (pl : PriceLevels) : Option (ℚ × List Nat) :=
  match pl.prices with
  | [] => none
  | p :: _ => some (p, (alistLookup pl.levels p).getD [])

/-- Sum of `order.remaining_quantity` over a deque of tags, reading each
object's current state from the heap. -/
def sumRemaining (heap : List (Nat × Order)) : List Nat → ℚ
  | [] => 0
  | t :: ts => qadd (((alistLookup heap t).map Order.remaining_quantity).getD 0)
      (sumRemaining heap ts)

/-- `PriceLevels.get_best_size()` (core.py lines 109-129): serves the cache
when valid, otherwise sums and populates the cache.  Returns the size and
the (possibly cache-updated) state. -/
def PriceLevels.getBestSize (pl : PriceLevels) (heap : List (Nat × Order)) :
    ℚ × PriceLevels :=
  match pl.prices with
  | [] => (0, pl)
  | best :: _ =>
    if pl.enable_cache ∧ pl.cached_best_price = some best ∧
        pl.cached_best_size.isSome then
      (pl.cached_best_size.getD 0, pl)
    else
      let size := sumRemaining heap ((alistLookup pl.levels best).getD [])
      if pl.enable_cache then
        (size, { pl with cached_best_size := some size,
                         cached_best_price := some best })
      else (size, pl)

/-! ## `LimitOrderBook` state -/

/-- `core.LimitOrderBook`: bid/ask `PriceLevels`, the `_orders` id → object
index, and the object heap (see file header).  `symbol`, `_stats`, `_lock`
are omitted. -/
structure Book where
  bids : PriceLevels
  asks : PriceLevels
  orders : List (String × Nat)
  heap : List (Nat × Order)
deriving DecidableEq, Repr

/-- `LimitOrderBook(symbol)` constructor. -/
def Book.empty : Book :=
  { bids := PriceLevels.mkEmpty true, asks := PriceLevels.mkEmpty false
    orders := [], heap := [] }

/-- Opposite-side levels used as maker side (`self.asks` for a BUY taker,
`self.bids` for a SELL taker). -/
def Book.makerSide (b : Book) : Side → PriceLevels
  | Side.BUY => b.asks
  | Side.SELL => b.bids

/-- Write back the maker side. -/
def Book.setMakerSide (b : Book) : Side → PriceLevels → Book
  | Side.BUY, pl => { b with asks := pl }
  | Side.SELL, pl => { b with bids := pl }

/-- The taker's own side (`self.bids` for BUY), used for resting residuals. -/
def Book.setOwnSide (b : Book) : Side → PriceLevels → Book
  | Side.BUY, pl => { b with bids := pl }
  | Side.SELL, pl => { b with asks := pl }

def Book.ownSide (b : Book) : Side → PriceLevels
  | Side.BUY => b.bids
  | Side.SELL => b.asks

/-- Result of a mutating book operation.  `raised` models an uncaught
Python exception; `fuelOut` carries the events emitted and the book state
reached when the step budget ran out (the Python loop would keep running). -/
inductive MRes where
  | ok : List Event → Book → MRes
  | raised : MRes
  | fuelOut : List Event → Book → MRes
deriving DecidableEq, Repr

def MRes.events : MRes → List Event
  | .ok evts _ => evts
  | .raised => []
  | .fuelOut evts _ => evts

def MRes.book (d : Book) : MRes → Book
  | .ok _ b => b
  | .raised => d
  | .fuelOut _ b => b

def MRes.isOk : MRes → Bool
  | .ok _ _ => true
  | _ => false

/-! ## FOK dry run (core.py lines 365-377) -/

/-- Inner `for order in orders` loop of the FOK pre-check: accumulate
`remaining_quantity`, stopping as soon as the total reaches `remaining`. -/
def fokSumQueue (heap : List (Nat × Order)) (remaining : ℚ) :
    List Nat → ℚ → ℚ
  | [], acc => acc
  | t :: ts, acc =>
    let acc' := qadd acc (((alistLookup heap t).map Order.remaining_quantity).getD 0)
    if acc' ≥ remaining then acc' else fokSumQueue heap remaining ts acc'

/-- Outer `for price, orders in maker_side._levels.items()` loop of the FOK
pre-check.  NOTE: the Python code iterates the `_levels` dict in *insertion*
order and `break`s at the first price-ineligible level. -/
def fokAvailable (heap : List (Nat × Order)) (takerSide : Side)
    (takerPrice : Option ℚ) (remaining : ℚ) :
    List (ℚ × List Nat) → ℚ → ℚ
  | [], acc => acc
  | (price, q) :: rest, acc =>
    if takerSide = Side.BUY ∧ (∃ tp, takerPrice = some tp ∧ tp < price) then acc
    else if takerSide = Side.SELL ∧ (∃ tp, takerPrice = some tp ∧ tp > price) then acc
    else
      let acc' := fokSumQueue heap remaining q acc
      if acc' ≥ remaining then acc'
      else fokAvailable heap takerSide takerPrice remaining rest acc'

/-! ## The matching loop (core.py lines 390-457) -/

/-- Control point inside `_match_against_book`'s nested `while` loops:
`outer` is the `while remaining > 0 and maker_side` header, `inner p` is
the `while best_orders and remaining > 0` header for the level at price
`p` fetched by the enclosing outer iteration. -/
inductive Phase where
  | outer
  | inner : ℚ → Phase
deriving DecidableEq, Repr

/-- Residual handling and terminal events (core.py lines 459-517), run when
the matching loop exits. -/
def matchFinish (b : Book) (taker : Order) (takerTag : Nat) (takerSide : Side)
    (remaining totalFilled : ℚ) (evts : List Event) : MRes :=
  let step1 : Option (List Event × Book × Order) :=
    if remaining > 0 then
      match taker.time_in_force with
      | TimeInForce.GTC =>
        -- rest the residual on the taker's own side
        let taker' := { taker with remaining_quantity := remaining }
        match (b.ownSide takerSide).addOrder takerTag taker'.price with
        | none => none  -- ValueError: price is None (MARKET order residual)
        | some pl' =>
          let b := b.setOwnSide takerSide pl'
          let b := { b with orders := alistSet b.orders taker'.order_id takerTag,
                            heap := alistSet b.heap takerTag taker' }
          some (evts ++ [{ type := EventType.NEW, order_id := some taker.order_id,
                           timestamp := some taker.timestamp }], b, taker')
      | TimeInForce.IOC =>
        some (evts ++ [{ type := EventType.CANCEL, order_id := some taker.order_id,
                         reason := some "IOC_REMAINING",
                         timestamp := some taker.timestamp }], b, taker)
      | TimeInForce.FOK =>
        if totalFilled = 0 then
          some (evts ++ [{ type := EventType.REJECT, order_id := some taker.order_id,
                           reason := some "FOK_NOT_FILLED",
                           timestamp := some taker.timestamp }], b, taker)
        else
          some (evts ++ [{ type := EventType.DONE, order_id := some taker.order_id,
                           reason := some "FOK_PARTIAL",
                           timestamp := some taker.timestamp }], b, taker)
    else some (evts, b, taker)
  match step1 with
  | none => MRes.raised
  | some (evts, b, taker) =>
    -- if taker_order.remaining_quantity <= 0: emit DONE
    if taker.remaining_quantity ≤ 0 then
      MRes.ok (evts ++ [{ type := EventType.DONE, order_id := some taker.order_id,
                          timestamp := some taker.timestamp }]) b
    else MRes.ok evts b

/-- One fuel tick per loop-header evaluation of the nested `while` loops in
`_match_against_book` (core.py lines 390-457).  The taker object is
threaded as a value (its in-place `remaining_quantity` updates are applied
to the threaded copy, faithful because the taker is not yet reachable from
the book). -/
def matchLoop : Nat → Phase → Book → Order → Nat → Side → ℚ → ℚ →
    List Event → MRes
  | 0, _, b, _, _, _, _, _, evts => MRes.fuelOut evts b
  | fuel + 1, Phase.outer, b, taker, takerTag, takerSide, remaining, totalFilled, evts =>
    -- while remaining > 0 and maker_side:
    if remaining > 0 ∧ (b.makerSide takerSide).prices ≠ [] then
      match (b.makerSide takerSide).getBest with
      | none => matchFinish b taker takerTag takerSide remaining totalFilled evts
      | some (bestPrice, _) =>
        -- price limit check for LIMIT takers
        if taker.type = OrderType.LIMIT ∧
            (∃ tp, taker.price = some tp ∧
              ((takerSide = Side.BUY ∧ tp < bestPrice) ∨
               (takerSide = Side.SELL ∧ tp > bestPrice))) then
          matchFinish b taker takerTag takerSide remaining totalFilled evts
        else
          matchLoop fuel (Phase.inner bestPrice) b taker takerTag takerSide
            remaining totalFilled evts
    else matchFinish b taker takerTag takerSide remaining totalFilled evts
  | fuel + 1, Phase.inner bestPrice, b, taker, takerTag, takerSide, remaining,
      totalFilled, evts =>
    let ms := b.makerSide takerSide
    let q := (alistLookup ms.levels bestPrice).getD []
    -- while best_orders and remaining > 0:
    match q with
    | [] => matchLoop fuel Phase.outer b taker takerTag takerSide remaining
        totalFilled evts
    | makerTag :: qrest =>
      if ¬ remaining > 0 then
        matchLoop fuel Phase.outer b taker takerTag takerSide remaining
          totalFilled evts
      else
        match alistLookup b.heap makerTag with
        | none => MRes.raised  -- unreachable while queue tags live in the heap
        | some maker =>
          -- self-trade prevention check
          if taker.hasFlag STP ∧ taker.client_id ≠ none ∧
              maker.client_id = taker.client_id then
            if q.length > 1 then
              -- best_orders.popleft(); continue
              let ms := { ms with levels := alistSet ms.levels bestPrice qrest }
              matchLoop fuel (Phase.inner bestPrice) (b.setMakerSide takerSide ms)
                taker takerTag takerSide remaining totalFilled evts
            else
              -- no more orders at this level: break (to the outer while)
              matchLoop fuel Phase.outer b taker takerTag takerSide remaining
                totalFilled evts
          else
            let fill_qty := qmin remaining maker.remaining_quantity
            let fill_price := bestPrice
            let tradeEvt : Event :=
              { type := EventType.TRADE, order_id := some taker.order_id,
                matched_order_id := some maker.order_id,
                price := some fill_price, quantity := some fill_qty,
                timestamp := some taker.timestamp }
            let remaining' := qsub remaining fill_qty
            let totalFilled' := qadd totalFilled fill_qty
            let taker' := { taker with remaining_quantity := remaining' }
            let maker' := { maker with
              remaining_quantity := qsub maker.remaining_quantity fill_qty }
            let b := { b with heap := alistSet b.heap makerTag maker' }
            if maker'.remaining_quantity ≤ 0 then
              let maker'' := { maker' with remaining_quantity := (0 : ℚ) }
              let b := { b with heap := alistSet b.heap makerTag maker'' }
              -- best_orders.popleft()
              let ms := b.makerSide takerSide
              let ms := { ms with levels := alistSet ms.levels bestPrice qrest }
              -- maker_side.remove_order(best_price, maker_order)
              let (_, ms) := ms.removeOrder bestPrice makerTag
              let b := b.setMakerSide takerSide ms
              -- del self._orders[maker_order.order_id] (KeyError if absent)
              if (alistLookup b.orders maker.order_id).isSome then
                let b := { b with orders := alistErase b.orders maker.order_id }
                let doneEvt : Event :=
                  { type := EventType.DONE, order_id := some maker.order_id,
                    timestamp := some taker.timestamp }
                matchLoop fuel (Phase.inner bestPrice) b taker' takerTag takerSide
                  remaining' totalFilled' (evts ++ [tradeEvt, doneEvt])
              else MRes.raised
            else
              matchLoop fuel (Phase.inner bestPrice) b taker' takerTag takerSide
                remaining' totalFilled' (evts ++ [tradeEvt])

/-- `LimitOrderBook._match_against_book` (core.py lines 346-517): the FOK
dry run followed by the matching loop. -/
def matchAgainstBook (fuel : Nat) (b : Book) (taker : Order) (takerTag : Nat)
    (takerSide : Side) : MRes :=
  let remaining := taker.remaining_quantity
  if taker.time_in_force = TimeInForce.FOK then
    let total_available :=
      fokAvailable b.heap takerSide taker.price remaining
        (b.makerSide takerSide).levels 0
    if total_available < remaining then
      MRes.ok [{ type := EventType.REJECT, order_id := some taker.order_id,
                 reason := some "FOK_NOT_FILLED",
                 timestamp := some taker.timestamp }] b
    else matchLoop fuel Phase.outer b taker takerTag takerSide remaining 0 []
  else matchLoop fuel Phase.outer b taker takerTag takerSide remaining 0 []

/-- The no-match admission branch of `_match_limit_order` (core.py lines
241-283 for BUY, 291-331 for SELL): POST_ONLY check, rest, or IOC/FOK
events.  `bestOpp` is the opposite side's best price (if any). -/
def limitRest (b : Book) (o : Order) (tag : Nat) (p : ℚ)
    (bestOpp : Option ℚ) (crosses : ℚ → Prop) [DecidablePred crosses] : MRes :=
  match o.time_in_force with
  | TimeInForce.GTC =>
    -- POST_ONLY: reject if it would match immediately (note: in this branch
    -- the crossing condition can never hold; faithful to the source).
    if (∃ bp, bestOpp = some bp ∧ crosses bp) ∧ o.hasFlag POST_ONLY then
      MRes.ok [{ type := EventType.REJECT, order_id := some o.order_id,
                 reason := some "POST_ONLY_WOULD_MATCH",
                 timestamp := some o.timestamp }] b
    else
      match (b.ownSide o.side).addOrder tag o.price with
      | none => MRes.raised
      | some pl' =>
        let b := b.setOwnSide o.side pl'
        let b := { b with orders := alistSet b.orders o.order_id tag,
                          heap := alistSet b.heap tag o }
        MRes.ok [{ type := EventType.NEW, order_id := some o.order_id,
                   timestamp := some o.timestamp }] b
  | TimeInForce.IOC =>
    MRes.ok [{ type := EventType.CANCEL, order_id := some o.order_id,
               reason := some "IOC_NO_MATCH", timestamp := some o.timestamp }] b
  | TimeInForce.FOK =>
    MRes.ok [{ type := EventType.REJECT, order_id := some o.order_id,
               reason := some "FOK_NOT_FILLED", timestamp := some o.timestamp }] b

/-- `LimitOrderBook._match_limit_order` (core.py lines 234-335).  A `none`
price would raise `TypeError` at the Python comparison; it is unreachable
because admission validation rejects priceless LIMIT orders. -/
def matchLimitOrder (fuel : Nat) (b : Book) (o : Order) (tag : Nat) : MRes :=
  match o.side with
  | Side.BUY =>
    match o.price with
    | none => MRes.raised
    | some p =>
      match (PriceLevels.getBest b.asks) with
      | none => limitRest b o tag p none (fun bp => p ≥ bp)
      | some (ap, _) =>
        if p < ap then limitRest b o tag p (some ap) (fun bp => p ≥ bp)
        else matchAgainstBook fuel b o tag Side.BUY
  | Side.SELL =>
    match o.price with
    | none => MRes.raised
    | some p =>
      match (PriceLevels.getBest b.bids) with
      | none => limitRest b o tag p none (fun bp => p ≤ bp)
      | some (bp0, _) =>
        if p > bp0 then limitRest b o tag p (some bp0) (fun bp => p ≤ bp)
        else matchAgainstBook fuel b o tag Side.SELL

/-- `LimitOrderBook.add_order` (core.py lines 175-232): admission
validation, then dispatch to market/limit matching (`_stats` updates
omitted). -/
def addOrder (fuel : Nat) (b : Book) (o : Order) (tag : Nat) : MRes :=
  if o.quantity ≤ 0 then
    MRes.ok [{ type := EventType.REJECT, order_id := some o.order_id,
               reason := some "INVALID_QUANTITY",
               timestamp := some o.timestamp }] b
  else if o.type = OrderType.LIMIT ∧ o.price = none then
    MRes.ok [{ type := EventType.REJECT, order_id := some o.order_id,
               reason := some "LIMIT_ORDER_MUST_HAVE_PRICE",
               timestamp := some o.timestamp }] b
  else if o.type = OrderType.LIMIT ∧ (∃ p, o.price = some p ∧ p ≤ 0) then
    MRes.ok [{ type := EventType.REJECT, order_id := some o.order_id,
               reason := some "INVALID_PRICE",
               timestamp := some o.timestamp }] b
  else
    match o.type with
    | OrderType.MARKET => matchAgainstBook fuel b o tag o.side
    | OrderType.LIMIT => matchLimitOrder fuel b o tag

/-- `LimitOrderBook.cancel_order` (core.py lines 519-576).  `raised` is the
unreachable case of an id-index tag missing from the heap. -/
def cancelOrder (b : Book) (order_id : String) : MRes :=
  match alistLookup b.orders order_id with
  | none =>
    MRes.ok [{ type := EventType.REJECT, order_id := some order_id,
               reason := some "ORDER_NOT_FOUND" }] b
  | some tag =>
    match alistLookup b.heap tag with
    | none => MRes.raised
    | some o =>
      match o.price with
      | none =>
        let b := { b with orders := alistErase b.orders order_id }
        MRes.ok [{ type := EventType.CANCEL, order_id := some order_id,
                   reason := some "MARKET_ORDER_CANCEL" }] b
      | some price =>
        let (removed, pl') :=
          match o.side with
          | Side.BUY => b.bids.removeOrder price tag
          | Side.SELL => b.asks.removeOrder price tag
        let b := match o.side with
          | Side.BUY => { b with bids := pl' }
          | Side.SELL => { b with asks := pl' }
        if removed then
          let b := { b with orders := alistErase b.orders order_id }
          MRes.ok [{ type := EventType.CANCEL, order_id := some order_id }] b
        else
          MRes.ok [{ type := EventType.REJECT, order_id := some order_id,
                     reason := some "ORDER_NOT_FOUND_IN_BOOK" }] b

/-- `LimitOrderBook.amend_order` (core.py lines 578-634).  The cancel+new
path constructs a fresh Python object; `freshTag` models its identity. -/
def amendOrder (fuel : Nat) (b : Book) (order_id : String)
    (new_price new_quantity : Option ℚ) (freshTag : Nat) : MRes :=
  match alistLookup b.orders order_id with
  | none =>
    MRes.ok [{ type := EventType.REJECT, order_id := some order_id,
               reason := some "ORDER_NOT_FOUND" }] b
  | some tag =>
    match alistLookup b.heap tag with
    | none => MRes.raised
    | some old =>
      if new_price = none ∧
          (∃ nq, new_quantity = some nq ∧ nq < old.remaining_quantity) then
        -- in-place decrease: old_order.remaining_quantity = new_quantity
        let old' := { old with remaining_quantity := new_quantity.getD 0 }
        let b := { b with heap := alistSet b.heap tag old' }
        MRes.ok [{ type := EventType.AMEND, order_id := some order_id,
                   quantity := new_quantity }] b
      else
        match cancelOrder b order_id with
        | MRes.raised => MRes.raised
        | MRes.fuelOut evts b' => MRes.fuelOut evts b'
        | MRes.ok cancelEvts b1 =>
          let newOrder : Order :=
            { order_id := order_id, client_id := old.client_id,
              side := old.side, type := old.type,
              price := if new_price.isSome then new_price else old.price,
              quantity := new_quantity.getD old.quantity,
              remaining_quantity := new_quantity.getD old.quantity,
              time_in_force := old.time_in_force, flags := old.flags,
              timestamp := old.timestamp, tag := freshTag }
          match addOrder fuel b1 newOrder freshTag with
          | MRes.raised => MRes.raised
          | MRes.ok addEvts b2 => MRes.ok (cancelEvts ++ addEvts) b2
          | MRes.fuelOut addEvts b2 => MRes.fuelOut (cancelEvts ++ addEvts) b2

/-- `LimitOrderBook.get_order` (core.py lines 689-692). -/
def getOrder (b : Book) (order_id : String) : Option Order :=
  (alistLookup b.orders order_id).bind (alistLookup b.heap)

/-- `LimitOrderBook.get_best_ask` (core.py lines 653-668): returns the best
ask `(price, size)` and the book with a possibly updated cache. -/
def getBestAsk (b : Book) : Option (ℚ × ℚ) × Book :=
  match b.asks.getBest with
  | none => (none, b)
  | some (price, q) =>
    if b.asks.enable_cache ∧ b.asks.cached_best_price = some price ∧
        b.asks.cached_best_size.isSome then
      (some (price, b.asks.cached_best_size.getD 0), b)
    else
      let size := sumRemaining b.heap q
      if b.asks.enable_cache then
        (some (price, size),
         { b with asks := { b.asks with cached_best_size := some size,
                                        cached_best_price := some price } })
      else (some (price, size), b)

/-- `LimitOrderBook.get_best_bid` (core.py lines 636-651). -/
def getBestBid (b : Book) : Option (ℚ × ℚ) × Book :=
  match b.bids.getBest with
  | none => (none, b)
  | some (price, q) =>
    if b.bids.enable_cache ∧ b.bids.cached_best_price = some price ∧
        b.bids.cached_best_size.isSome then
      (some (price, b.bids.cached_best_size.getD 0), b)
    else
      let size := sumRemaining b.heap q
      if b.bids.enable_cache then
        (some (price, size),
         { b with bids := { b.bids with cached_best_size := some size,
                                        cached_best_price := some price } })
      else (some (price, size), b)

/-- BUY-side no-cross test against the current best ask (true when the
order would take the non-matching branch of `_match_limit_order`). -/
def noCrossBuy (b : Book) (p : ℚ) : Bool :=
  match b.asks.getBest with
  | none => true
  | some (ap, _) => decide (p < ap)

/-! ## Association list lemmas -/

section AlistLemmas

variable {α β : Type} [DecidableEq α]

theorem alistLookup_set_self (l : List (α × β)) (k : α) (v : β) :
    alistLookup (alistSet l k v) k = some v := by
  induction l with
  | nil => simp [alistSet, alistLookup]
  | cons hd tl ih =>
    obtain ⟨k', w⟩ := hd
    by_cases h : k' = k <;> simp [alistSet, alistLookup, h, ih]

theorem alistLookup_set_ne (l : List (α × β)) (k k' : α) (v : β)
    (h : k' ≠ k) : alistLookup (alistSet l k v) k' = alistLookup l k' := by
  induction l with
  | nil => simp [alistSet, alistLookup, Ne.symm h]
  | cons hd tl ih =>
    obtain ⟨k₀, w⟩ := hd
    by_cases h0 : k₀ = k
    · subst h0
      simp [alistSet, alistLookup, Ne.symm h]
    · simp only [alistSet, if_neg h0]
      by_cases h1 : k₀ = k' <;> simp [alistLookup, h1, ih]

theorem alistLookup_mem {l : List (α × β)} {k : α} {v : β}
    (h : alistLookup l k = some v) : (k, v) ∈ l := by
  induction l with
  | nil => simp [alistLookup] at h
  | cons hd tl ih =>
    obtain ⟨k₀, w⟩ := hd
    by_cases h0 : k₀ = k
    · subst h0; simp [alistLookup] at h; simp [h]
    · simp only [alistLookup, if_neg h0] at h
      exact List.mem_cons_of_mem _ (ih h)

theorem alistLookup_erase_ne (l : List (α × β)) (k k' : α) (h : k' ≠ k) :
    alistLookup (alistErase l k) k' = alistLookup l k' := by
  induction l with
  | nil => simp [alistErase]
  | cons hd tl ih =>
    obtain ⟨k₀, w⟩ := hd
    by_cases h0 : k₀ = k
    · subst h0
      simp [alistErase, alistLookup, Ne.symm h]
    · by_cases h1 : k₀ = k'
      · subst h1
        simp [alistErase, alistLookup, h0]
      · simp [alistErase, alistLookup, h0, h1, ih]

theorem alistLookup_erase_self {l : List (α × β)} {k : α}
    (h : (l.map Prod.fst).Nodup) : alistLookup (alistErase l k) k = none := by
  induction l with
  | nil => simp [alistErase, alistLookup]
  | cons hd tl ih =>
    obtain ⟨k₀, w⟩ := hd
    simp only [List.map_cons, List.nodup_cons] at h
    by_cases h0 : k₀ = k
    · subst h0
      simp only [alistErase, if_pos rfl]
      -- k is not a key of tl, so lookup misses
      clear ih
      induction tl with
      | nil => simp [alistLookup]
      | cons hd' tl' ih' =>
        obtain ⟨k₁, w'⟩ := hd'
        simp only [List.map_cons, List.mem_cons, List.nodup_cons] at h
        have hne : k₁ ≠ k₀ := fun hh => h.1 (Or.inl hh.symm)
        simp only [alistLookup, if_neg hne]
        exact ih' ⟨fun hm => h.1 (Or.inr hm), h.2.2⟩
    · simp only [alistErase, if_neg h0, alistLookup, if_neg h0]
      exact ih h.2

theorem alistSet_keys_mem {l : List (α × β)} {k k₀ : α} {v : β}
    (hm : k₀ ∈ (alistSet l k v).map Prod.fst) :
    k₀ ∈ l.map Prod.fst ∨ k₀ = k := by
  induction l with
  | nil =>
    simp only [alistSet, List.map_cons, List.map_nil, List.mem_singleton] at hm
    exact Or.inr hm
  | cons hd tl ih =>
    obtain ⟨k₁, w⟩ := hd
    by_cases h1 : k₁ = k
    · simp only [alistSet, if_pos h1, List.map_cons, List.mem_cons] at hm
      rcases hm with hm | hm
      · exact Or.inl (by simp [hm])
      · exact Or.inl (List.mem_cons_of_mem _ hm)
    · simp only [alistSet, if_neg h1, List.map_cons, List.mem_cons] at hm
      rcases hm with hm | hm
      · exact Or.inl (by simp [hm])
      · rcases ih hm with hh | hh
        · exact Or.inl (List.mem_cons_of_mem _ hh)
        · exact Or.inr hh

theorem alistSet_keys_nodup {l : List (α × β)} {k : α} {v : β}
    (h : (l.map Prod.fst).Nodup) :
    ((alistSet l k v).map Prod.fst).Nodup := by
  induction l with
  | nil => simp [alistSet]
  | cons hd tl ih =>
    obtain ⟨k₀, w⟩ := hd
    simp only [List.map_cons, List.nodup_cons] at h
    by_cases h0 : k₀ = k
    · subst h0; simpa [alistSet, List.nodup_cons] using h
    · simp only [alistSet, if_neg h0, List.map_cons, List.nodup_cons]
      refine ⟨fun hm => ?_, ih h.2⟩
      rcases alistSet_keys_mem hm with hh | hh
      · exact h.1 hh
      · exact h0 hh

theorem listRemoveFirst_append_not_mem {q : List α} {t : α} (h : t ∉ q) :
    listRemoveFirst (q ++ [t]) t = some q := by
  induction q with
  | nil => simp [listRemoveFirst]
  | cons x xs ih =>
    simp only [List.mem_cons, not_or] at h
    have hx : ¬ x = t := fun hh => h.1 hh.symm
    simp [List.cons_append, listRemoveFirst, if_neg hx, ih h.2]

theorem listRemoveFirst_eq_none {q : List α} {t : α} (h : t ∉ q) :
    listRemoveFirst q t = none := by
  induction q with
  | nil => rfl
  | cons x xs ih =>
    simp only [List.mem_cons, not_or] at h
    have hx : ¬ x = t := fun hh => h.1 hh.symm
    simp [listRemoveFirst, hx, ih h.2]

theorem alistLookup_append_of_none {l m : List (α × β)} {k : α}
    (h : alistLookup l k = none) :
    alistLookup (l ++ m) k = alistLookup m k := by
  induction l with
  | nil => simp
  | cons hd tl ih =>
    obtain ⟨k₀, w⟩ := hd
    by_cases h0 : k₀ = k
    · simp [alistLookup, h0] at h
    · simp only [alistLookup, if_neg h0] at h
      simp only [List.cons_append, alistLookup, if_neg h0]
      exact ih h

theorem alistLookup_append_of_some {l m : List (α × β)} {k : α} {v : β}
    (h : alistLookup l k = some v) :
    alistLookup (l ++ m) k = some v := by
  induction l with
  | nil => simp [alistLookup] at h
  | cons hd tl ih =>
    obtain ⟨k₀, w⟩ := hd
    by_cases h0 : k₀ = k
    · simp_all [alistLookup]
    · simp only [alistLookup, if_neg h0] at h
      simp only [List.cons_append, alistLookup, if_neg h0]
      exact ih h

theorem alistLookup_append_single_ne {α β : Type} [DecidableEq α]
    (l : List (α × β)) (k k' : α) (v : β) (h : k' ≠ k) :
    alistLookup (l ++ [(k, v)]) k' = alistLookup l k' := by
  cases hl : alistLookup l k' with
  | some w => exact alistLookup_append_of_some hl
  | none =>
    rw [alistLookup_append_of_none hl]
    simp [alistLookup, Ne.symm h]

end AlistLemmas

/-! ## `PriceLevels` operation lemmas -/

/-- Both branches of a cache-invalidation `if` return `some`; a property of
either branch's value lifts to the result. -/
theorem exists_ite_some {γ : Type} {c : Prop} [Decidable c] {x y : γ}
    (P : γ → Prop) (hx : P x) (hy : P y) :
    ∃ z, (if c then some x else some y) = some z ∧ P z := by
  by_cases hc : c
  · exact ⟨x, by rw [if_pos hc], hx⟩
  · exact ⟨y, by rw [if_neg hc], hy⟩

/-- Variant of `exists_ite_some` for `remove_order`'s `(removed, state)`
result pairs. -/
theorem exists_ite_pair {γ : Type} {c : Prop} [Decidable c] {x y : γ}
    (P : γ → Prop) (hx : P x) (hy : P y) :
    ∃ z, (if c then (true, x) else (true, y)) = (true, z) ∧ P z := by
  by_cases hc : c
  · exact ⟨x, by rw [if_pos hc], hx⟩
  · exact ⟨y, by rw [if_neg hc], hy⟩

/-- `PriceLevels.add_order` with a present price always succeeds, appends
the order at the tail of its price's queue (creating the level if absent)
and leaves every other level's queue untouched. -/
theorem plAddOrder_levels (pl : PriceLevels) (tag : Nat) (p : ℚ) :
    ∃ pl', pl.addOrder tag (some p) = some pl' ∧
      alistLookup pl'.levels p =
        some ((alistLookup pl.levels p).getD [] ++ [tag]) ∧
      ∀ p', p' ≠ p → alistLookup pl'.levels p' = alistLookup pl.levels p' := by
  unfold PriceLevels.addOrder
  by_cases h : (alistLookup pl.levels p).isSome
  · obtain ⟨q, hq⟩ := Option.isSome_iff_exists.mp h
    simp only [h, if_true, hq]
    refine exists_ite_some _ ?_ ?_ <;>
      exact ⟨by simp [alistLookup_set_self, hq],
        fun p' hp' => by simp [alistLookup_set_ne _ _ _ _ hp']⟩
  · have hnone : alistLookup pl.levels p = none :=
      Option.not_isSome_iff_eq_none.mp h
    have hq0 : alistLookup (pl.levels ++ [(p, ([] : List Nat))]) p = some [] := by
      rw [alistLookup_append_of_none hnone]; simp [alistLookup]
    simp only [h, if_false, hq0, hnone]
    refine exists_ite_some _ ?_ ?_ <;>
      refine ⟨by simp [alistLookup_set_self, hq0], fun p' hp' => ?_⟩ <;>
      · simp only [alistLookup_set_ne _ _ _ _ hp']
        exact alistLookup_append_single_ne _ _ _ _ hp'

/-- `PriceLevels.remove_order` of the tail-most copy of a tag that occurs
exactly once in its queue: removal succeeds and other levels are
untouched; when other orders remain at the price, its queue just loses the
tag. -/
theorem plRemoveOrder_pop (pl : PriceLevels) (p : ℚ) (t : Nat) (q : List Nat)
    (hl : alistLookup pl.levels p = some (q ++ [t])) (hq : t ∉ q) :
    ∃ pl', pl.removeOrder p t = (true, pl') ∧
      (∀ p', p' ≠ p → alistLookup pl'.levels p' = alistLookup pl.levels p') ∧
      (q ≠ [] → alistLookup pl'.levels p = some q) := by
  unfold PriceLevels.removeOrder
  simp only [hl, listRemoveFirst_append_not_mem hq]
  by_cases hq0 : q = []
  · subst hq0
    simp only [if_pos rfl]
    refine exists_ite_pair _ ?_ ?_ <;>
      exact ⟨fun p' hp' => by simp [alistLookup_erase_ne _ _ _ hp'], by simp⟩
  · simp only [if_neg hq0]
    refine exists_ite_pair _ ?_ ?_ <;>
      exact ⟨fun p' hp' => by simp [alistLookup_set_ne _ _ _ _ hp'],
        fun _ => by simp [alistLookup_set_self]⟩

/-! ## Concrete scenario setups (from the spec's §8 scenarios and the
repository's own tests) -/

/-- Order constructor used by the scenarios (`remaining_quantity` starts
equal to `quantity`, as all callers in the repository do). -/
def mkOrder (id : String) (cid : Option String) (s : Side) (ty : OrderType)
    (p : Option ℚ) (q : ℚ) (tif : TimeInForce) (fl : Nat) (ts : ℚ)
    (tag : Nat) : Order :=
  { order_id := id, client_id := cid, side := s, type := ty, price := p,
    quantity := q, remaining_quantity := q, time_in_force := tif,
    flags := fl, timestamp := ts, tag := tag }

/-- Resting SELL `price=100 qty=1` (spec §8 scenario 6). -/
def c1Sell : Order :=
  mkOrder "sell1" (some "bob") Side.SELL OrderType.LIMIT (some 100) 1
    TimeInForce.GTC 0 0 1

/-- Book holding only `c1Sell`. -/
def c1Book : Book := (addOrder 100 Book.empty c1Sell 1).book Book.empty

/-- BUY POST_ONLY GTC `price=100 qty=1` — crosses the book. -/
def c1Buy : Order :=
  mkOrder "buy1" (some "alice") Side.BUY OrderType.LIMIT (some 100) 1
    TimeInForce.GTC POST_ONLY 1 2

/-- A non-crossing GTC LIMIT BUY at price `p` with identity `tag`. -/
def bidAt (p : ℚ) (tag : Nat) : Order :=
  mkOrder (toString tag) none Side.BUY OrderType.LIMIT (some p) 1
    TimeInForce.GTC 0 0 tag

/-- Book after resting BUY orders at 100, 103, 105, 104 (in that order);
the asks side stays empty so every order rests. -/
def c2Book : Book :=
  let b1 := (addOrder 100 Book.empty (bidAt 100 1) 1).book Book.empty
  let b2 := (addOrder 100 b1 (bidAt 103 2) 2).book b1
  let b3 := (addOrder 100 b2 (bidAt 105 3) 3).book b2
  (addOrder 100 b3 (bidAt 104 4) 4).book b3

/-- A resting GTC LIMIT SELL at price `p`, quantity `q`, identity `tag`. -/
def askAt (p q : ℚ) (tag : Nat) : Order :=
  mkOrder (toString tag) none Side.SELL OrderType.LIMIT (some p) q
    TimeInForce.GTC 0 0 tag

/-- Book whose ask levels were created at 105 first, then 100, so the
`_levels` dict iterates `105, 100` in insertion order. -/
def c4Book : Book :=
  let b1 := (addOrder 100 Book.empty (askAt 105 1 1) 1).book Book.empty
  (addOrder 100 b1 (askAt 100 1 2) 2).book b1

/-- BUY FOK `price=100 qty=1`: the level at 100 alone covers it. -/
def c4Fok : Order :=
  mkOrder "buy1" none Side.BUY OrderType.LIMIT (some 100) 1
    TimeInForce.FOK 0 2 3

/-- Resting SELL `id=sell1 client=alice price=100 qty=1` (spec §8
scenario 7). -/
def c5Sell : Order :=
  mkOrder "sell1" (some "alice") Side.SELL OrderType.LIMIT (some 100) 1
    TimeInForce.GTC 0 0 1

def c5Book : Book := (addOrder 100 Book.empty c5Sell 1).book Book.empty

/-- BUY `id=buy1 client=alice flags=STP price=100 qty=1`. -/
def c5Buy : Order :=
  mkOrder "buy1" (some "alice") Side.BUY OrderType.LIMIT (some 100) 1
    TimeInForce.GTC STP 1 2

/-- Book with SELL `price=100 qty=1` whose best-ask cache has just been
populated by a `get_best_ask` call. -/
def c6Book : Book :=
  let b := (addOrder 100 Book.empty
    (mkOrder "sell1" none Side.SELL OrderType.LIMIT (some 100) 1
      TimeInForce.GTC 0 0 1) 1).book Book.empty
  (getBestAsk b).2

/-- BUY GTC `price=100 qty=0.5`: partially fills the resting maker. -/
def c6Buy : Order :=
  mkOrder "buy1" none Side.BUY OrderType.LIMIT (some 100) qhalf
    TimeInForce.GTC 0 1 2

def c6After : Book := (addOrder 100 c6Book c6Buy 2).book c6Book

/-- MARKET BUY GTC `qty=1` (nothing rules out GTC on a MARKET order). -/
def c7Market : Order :=
  mkOrder "m1" none Side.BUY OrderType.MARKET none 1 TimeInForce.GTC 0 0 1

/-- Book with resting SELL `price=100 qty=0.5` (spec §8 scenario 4). -/
def c8Book : Book :=
  (addOrder 100 Book.empty
    (mkOrder "sell1" (some "bob") Side.SELL OrderType.LIMIT (some 100) qhalf
      TimeInForce.GTC 0 0 1) 1).book Book.empty

/-- BUY IOC `price=100 qty=1`. -/
def c8Buy : Order :=
  mkOrder "buy1" (some "alice") Side.BUY OrderType.LIMIT (some 100) 1
    TimeInForce.IOC 0 1 2

/-- The state in which the C8 matching loop spins: the maker was fully
filled and popped, but its emptied level was never removed (the
`remove_order` call raises `ValueError` internally because the order was
already popped), so `get_best` keeps returning the empty level. -/
def c8Stuck : Book := (addOrder 30 c8Book c8Buy 2).book c8Book

/-- Book with a resting BUY GTC `id=o1 price=100 qty=1`. -/
def c9Book : Book :=
  (addOrder 100 Book.empty
    (mkOrder "o1" none Side.BUY OrderType.LIMIT (some 100) 1
      TimeInForce.GTC 0 0 1) 1).book Book.empty

def c9After : Book := (amendOrder 100 c9Book "o1" none (some qneg1) 99).book c9Book

/-! ## Claim theorems -/

/-- Claim C1 (code_bug evidence): with the book holding SELL `price=100
qty=1`, submitting BUY POST_ONLY GTC `price=100 qty=1` does **not** produce
`REJECT[POST_ONLY_WOULD_MATCH]`: the POST_ONLY check sits inside the
non-crossing branch of `_match_limit_order` and is unreachable for a
crossing order, so the order trades.  The events are a TRADE at 100 for
quantity 1, DONE for the maker, and DONE for the taker; no event is a
REJECT. -/
theorem c1_post_only_crossing_trades_instead_of_rejecting :
    (addOrder 100 c1Book c1Buy 2).events =
      [{ type := EventType.TRADE, order_id := some "buy1",
         matched_order_id := some "sell1", price := some 100,
         quantity := some 1, timestamp := some 1 },
       { type := EventType.DONE, order_id := some "sell1",
         timestamp := some 1 },
       { type := EventType.DONE, order_id := some "buy1",
         timestamp := some 1 }] ∧
    (∀ e ∈ (addOrder 100 c1Book c1Buy 2).events,
      e.type ≠ EventType.REJECT ∧ e.reason ≠ some "POST_ONLY_WOULD_MATCH") := by
  decide

/-- Claim C2 (code_bug evidence): after resting bids at 100, 103, 105, 104,
the bid-side ordered price sequence is `[104, 105, 103, 100]` — not
descending (`bisect_left` is applied to a descending list, and the
first-versus-last re-sort check does not notice) — and `get_best` returns
104 although a bid at 105 rests in the book. -/
theorem c2_bid_prices_not_descending_and_best_is_wrong :
    c2Book.bids.prices = [104, 105, 103, 100] ∧
    (getBestBid c2Book).1 = some (104, 1) ∧
    (∃ p ∈ c2Book.bids.prices, 104 < p) := by
  decide

/-- Claim C4 (code_bug evidence): with ask levels created at 105 first and
100 second, BUY FOK `price=100 qty=1` is rejected with `FOK_NOT_FILLED`
even though the price-eligible resting liquidity (the level at 100) sums
to 1 ≥ 1: the dry run iterates the `_levels` dict in insertion order and
breaks at the first price-ineligible level (105), never reaching the
eligible level. -/
theorem c4_fok_rejected_despite_sufficient_eligible_liquidity :
    addOrder 100 c4Book c4Fok 3 =
      MRes.ok [{ type := EventType.REJECT, order_id := some "buy1",
                 reason := some "FOK_NOT_FILLED", timestamp := some 2 }]
        c4Book ∧
    qsum ((c4Book.asks.levels.filter (fun pq => pq.1 ≤ 100)).map
        (fun pq => sumRemaining c4Book.heap pq.2)) = 1 ∧
    ¬ ((1 : ℚ) < c4Fok.quantity) := by
  decide

/-- Two-tick loop lemma for C5: with the single same-client maker at the
head of the best level, the STP branch hits `break` without mutating
anything, and the outer `while` re-enters the same state. -/
theorem c5_loop_step (k : Nat) :
    matchLoop (k + 2) Phase.outer c5Book c5Buy 2 Side.BUY 1 0 [] =
    matchLoop k Phase.outer c5Book c5Buy 2 Side.BUY 1 0 [] := rfl

theorem c5_loop_spins (n : Nat) :
    matchLoop n Phase.outer c5Book c5Buy 2 Side.BUY 1 0 [] =
      MRes.fuelOut [] c5Book := by
  induction n using Nat.twoStepInduction with
  | zero => rfl
  | one => rfl
  | more k ih ih2 => rw [c5_loop_step k]; exact ih

/-- Claim C5 (code_bug evidence): in the spec's STP scenario (book holds
SELL `id=sell1 client=alice price=100 qty=1`; submit BUY `id=buy1
client=alice flags=STP price=100 qty=1`), `add_order` never returns: the
STP `break` leaves the single same-client maker in place and the outer
`while remaining > 0 and maker_side` loop re-fetches the same level
forever.  For every fuel the result is `fuelOut` with no events emitted
and the book unchanged — in particular the taker is never admitted as a
resting BUY and no NEW event is produced. -/
theorem c5_stp_scenario_loops_forever (fuel : Nat) :
    addOrder fuel c5Book c5Buy 2 = MRes.fuelOut [] c5Book := by
  have h : addOrder fuel c5Book c5Buy 2 =
      matchLoop fuel Phase.outer c5Book c5Buy 2 Side.BUY 1 0 [] := rfl
  rw [h]; exact c5_loop_spins fuel

/-- Claim C6 (code_bug evidence): populate the ask-side best cache via
`get_best_ask` (book: SELL `price=100 qty=1`), then partially fill the
maker with BUY GTC `price=100 qty=0.5`.  The call returns normally, the
cache still holds `(100, 1)`, but the best queue now sums to `1/2`; a
subsequent `get_best_ask` serves the stale size 1. -/
theorem c6_partial_fill_leaves_best_size_cache_stale :
    (addOrder 100 c6Book c6Buy 2).isOk = true ∧
    c6After.asks.cached_best_price = some 100 ∧
    c6After.asks.cached_best_size = some 1 ∧
    sumRemaining c6After.heap ((alistLookup c6After.asks.levels 100).getD []) =
      qhalf ∧
    (1 : ℚ) ≠ qhalf ∧
    (getBestAsk c6After).1 = some (100, 1) := by
  decide

/-- Claim C7 (code_bug evidence): submitting MARKET BUY GTC `qty=1` to an
empty book raises: the residual-handling GTC branch calls
`PriceLevels.add_order` with `price=None`, which raises `ValueError`
(`"Price cannot be None for book orders"`), escaping `add_order` instead
of being surfaced as a REJECT or CANCEL event. -/
theorem c7_market_gtc_residual_raises (fuel : Nat) :
    addOrder (fuel + 1) Book.empty c7Market 1 = MRes.raised := rfl

/-- Two-tick loop lemma for C8: once the maker's level has been emptied
but not removed (`remove_order` was called after `popleft` and its
`deque.remove` raised), the loop keeps alternating between the empty
deque check and the outer `while`, which re-fetches the empty level. -/
theorem c8_loop_step (k : Nat) (evts : List Event) :
    matchLoop (k + 2) (Phase.inner 100) c8Stuck
      { c8Buy with remaining_quantity := qhalf } 2 Side.BUY qhalf qhalf evts =
    matchLoop k (Phase.inner 100) c8Stuck
      { c8Buy with remaining_quantity := qhalf } 2 Side.BUY qhalf qhalf evts := rfl

theorem c8_loop_spins (n : Nat) (evts : List Event) :
    matchLoop n (Phase.inner 100) c8Stuck
      { c8Buy with remaining_quantity := qhalf } 2 Side.BUY qhalf qhalf evts =
      MRes.fuelOut evts c8Stuck := by
  induction n using Nat.twoStepInduction with
  | zero => rfl
  | one => rfl
  | more k ih ih2 => rw [c8_loop_step k evts]; exact ih

/-- Claim C8 (code_bug evidence): in the spec's IOC-partial scenario (book
holds SELL `price=100 qty=0.5`; submit BUY IOC `price=100 qty=1`),
`add_order` emits the TRADE of 0.5 and the maker's DONE and then never
returns — the emptied level survives (`remove_order` raises internally
after `popleft`) and the outer loop spins on it — so the expected
`CANCEL[IOC_REMAINING]` is never produced.  For every fuel the result is
`fuelOut` with exactly those two events. -/
theorem c8_ioc_partial_loops_forever (fuel : Nat) :
    addOrder (fuel + 2) c8Book c8Buy 2 =
      MRes.fuelOut
        [{ type := EventType.TRADE, order_id := some "buy1",
           matched_order_id := some "sell1", price := some 100,
           quantity := some qhalf, timestamp := some 1 },
         { type := EventType.DONE, order_id := some "sell1",
           timestamp := some 1 }] c8Stuck := by
  have h : addOrder (fuel + 2) c8Book c8Buy 2 =
      matchLoop fuel (Phase.inner 100) c8Stuck
        { c8Buy with remaining_quantity := qhalf } 2 Side.BUY qhalf qhalf
        [{ type := EventType.TRADE, order_id := some "buy1",
           matched_order_id := some "sell1", price := some 100,
           quantity := some qhalf, timestamp := some 1 },
         { type := EventType.DONE, order_id := some "sell1",
           timestamp := some 1 }] := rfl
  rw [h]; exact c8_loop_spins fuel _

/-- Claim C9 (code_bug evidence): with BUY GTC `id=o1 price=100 qty=1`
resting, `amend_order("o1", new_quantity=-1)` takes the in-place branch
(`-1 < remaining`), sets `remaining_quantity := -1` with no validation and
emits AMEND; the order reachable through the id index then violates
`0 ≤ remaining_quantity`. -/
theorem c9_amend_negative_quantity_breaks_invariant :
    (amendOrder 100 c9Book "o1" none (some qneg1) 99).events =
      [{ type := EventType.AMEND, order_id := some "o1",
         quantity := some qneg1 }] ∧
    (getOrder c9After "o1").map Order.remaining_quantity = some qneg1 ∧
    qneg1 = -1 ∧ ¬ ((0 : ℚ) ≤ qneg1) := by
  decide

/-- A valid non-crossing GTC LIMIT BUY order always takes the resting
branch of `_match_limit_order`: it is appended to its bid level, indexed
under its id, and `add_order` returns a single NEW event.  The POST_ONLY
check in that branch cannot fire because its crossing condition
contradicts the branch guard. -/
theorem addOrder_rest_buy (fuel : Nat) (b : Book) (o : Order) (t2 : Nat)
    (p2 : ℚ) (hside : o.side = Side.BUY) (htype : o.type = OrderType.LIMIT)
    (htif : o.time_in_force = TimeInForce.GTC) (hq : 0 < o.quantity)
    (hp : o.price = some p2) (hpos : 0 < p2) (hnc : noCrossBuy b p2 = true) :
    ∃ pl', b.bids.addOrder t2 (some p2) = some pl' ∧
      addOrder fuel b o t2 = MRes.ok
        [{ type := EventType.NEW, order_id := some o.order_id,
           timestamp := some o.timestamp }]
        { b with bids := pl', orders := alistSet b.orders o.order_id t2,
                 heap := alistSet b.heap t2 o } := by
  obtain ⟨pl', hpl', _, _⟩ := plAddOrder_levels b.bids t2 p2
  refine ⟨pl', hpl', ?_⟩
  have hv1 : ¬ o.quantity ≤ 0 := not_le.mpr hq
  have hv2 : ¬ (o.type = OrderType.LIMIT ∧ o.price = none) := by simp [hp]
  have hv3 : ¬ (o.type = OrderType.LIMIT ∧ ∃ p, o.price = some p ∧ p ≤ 0) := by
    rintro ⟨-, p, hp', hle⟩
    rw [hp] at hp'
    cases hp'
    exact absurd hpos (not_lt.mpr hle)
  rcases hb : b.asks.getBest with _ | ⟨ap, qq⟩
  · unfold addOrder matchLimitOrder limitRest
    rw [if_neg hv1, if_neg hv2, if_neg hv3]
    simp only [htype, hside, hp, hb, htif]
    rw [if_neg (by rintro ⟨⟨bp, hbp, -⟩, -⟩; cases hbp)]
    simp only [Book.ownSide, Book.setOwnSide, hside, hp, hpl']
  · have hlt : p2 < ap := by
      unfold noCrossBuy at hnc
      rw [hb] at hnc
      simpa using hnc
    unfold addOrder matchLimitOrder limitRest
    rw [if_neg hv1, if_neg hv2, if_neg hv3]
    simp only [htype, hside, hp, hb, htif]
    rw [if_pos hlt]
    rw [if_neg ?hpo]
    case hpo =>
      rintro ⟨⟨bp, hbp, hge⟩, -⟩
      cases hbp
      exact absurd hge (not_le.mpr hlt)
    simp only [Book.ownSide, Book.setOwnSide, hside, hp, hpl']

/-- `cancel_order` of an indexed resting BUY order whose side-level removal
succeeds: emits CANCEL and drops the id-index entry. -/
theorem cancelOrder_removes (b : Book) (i : String) (t : Nat) (o : Order)
    (p : ℚ) (plr : PriceLevels)
    (hidx : alistLookup b.orders i = some t)
    (hheap : alistLookup b.heap t = some o)
    (hp : o.price = some p) (hside : o.side = Side.BUY)
    (hrem : b.bids.removeOrder p t = (true, plr)) :
    cancelOrder b i =
      MRes.ok [{ type := EventType.CANCEL, order_id := some i }]
        { b with bids := plr, orders := alistErase b.orders i } := by
  unfold cancelOrder
  simp only [hidx, hheap, hp, hside, hrem]
  rw [if_pos trivial]

/-- `cancel_order` of an unknown id: single REJECT, book unchanged. -/
theorem cancelOrder_not_found (b : Book) (i : String)
    (h : alistLookup b.orders i = none) :
    cancelOrder b i =
      MRes.ok [{ type := EventType.REJECT, order_id := some i,
                 reason := some "ORDER_NOT_FOUND" }] b := by
  unfold cancelOrder
  simp only [h]

/-- Claim C10: `add_order` does not enforce `order_id` uniqueness.  With an
order resting in a bid queue (identity `t1`) and indexed under id
`o2.order_id`, submitting a fresh valid non-crossing GTC LIMIT BUY `o2`
(identity `t2`) with the same id yields a single NEW event (no REJECT),
overwrites the id-index entry to `t2`, and leaves the older order in its
price-level queue; `get_order` then returns `o2`, `cancel_order` removes
only `o2` (the older order is still queued but unindexed), and a second
`cancel_order` is rejected with `ORDER_NOT_FOUND` while the older order
still rests in its queue. -/
theorem c10_duplicate_ids_shadow_older_order (fuel : Nat) (b : Book)
    (o1 o2 : Order) (t1 t2 : Nat) (p1 p2 : ℚ)
    (hside : o2.side = Side.BUY) (htype : o2.type = OrderType.LIMIT)
    (htif : o2.time_in_force = TimeInForce.GTC) (hq : 0 < o2.quantity)
    (hp : o2.price = some p2) (hpos : 0 < p2)
    (hnc : noCrossBuy b p2 = true)
    (hfq : t2 ∉ (alistLookup b.bids.levels p2).getD [])
    (ht1 : t1 ∈ (alistLookup b.bids.levels p1).getD [])
    (hidx : alistLookup b.orders o2.order_id = some t1)
    (hheap1 : alistLookup b.heap t1 = some o1)
    (hfresh : alistLookup b.heap t2 = none)
    (hnd : (b.orders.map Prod.fst).Nodup) :
    ∃ b1 b2,
      addOrder fuel b o2 t2 =
        MRes.ok [{ type := EventType.NEW, order_id := some o2.order_id,
                   timestamp := some o2.timestamp }] b1 ∧
      alistLookup b1.orders o2.order_id = some t2 ∧
      getOrder b1 o2.order_id = some o2 ∧
      t1 ∈ (alistLookup b1.bids.levels p1).getD [] ∧
      cancelOrder b1 o2.order_id =
        MRes.ok [{ type := EventType.CANCEL,
                   order_id := some o2.order_id }] b2 ∧
      alistLookup b2.orders o2.order_id = none ∧
      getOrder b2 o2.order_id = none ∧
      t1 ∈ (alistLookup b2.bids.levels p1).getD [] ∧
      cancelOrder b2 o2.order_id =
        MRes.ok [{ type := EventType.REJECT, order_id := some o2.order_id,
                   reason := some "ORDER_NOT_FOUND" }] b2 := by
  obtain ⟨pl', hpl', hlook, hother⟩ := plAddOrder_levels b.bids t2 p2
  obtain ⟨pl2, hadd⟩ := addOrder_rest_buy fuel b o2 t2 p2 hside htype htif hq
    hp hpos hnc
  rw [hpl'] at hadd
  obtain ⟨hsome, hrun⟩ := hadd
  cases hsome
  have hfq' : t2 ∉ (alistLookup b.bids.levels p2).getD [] := hfq
  refine ⟨({ b with bids := pl', orders := alistSet b.orders o2.order_id t2, heap := alistSet b.heap t2 o2 }), ?_⟩
  have hb1idx : alistLookup (alistSet b.orders o2.order_id t2) o2.order_id =
      some t2 := alistLookup_set_self _ _ _
  have hb1heap : alistLookup (alistSet b.heap t2 o2) t2 = some o2 :=
    alistLookup_set_self _ _ _
  have ht1b1 : t1 ∈ (alistLookup pl'.levels p1).getD [] := by
    by_cases hpp : p1 = p2
    · subst hpp
      rw [hlook]
      exact List.mem_append_left _ ht1
    · rw [hother p1 hpp]
      exact ht1
  obtain ⟨plr, hrem, hremother, hremself⟩ :=
    plRemoveOrder_pop pl' p2 t2 _ hlook hfq'
  refine ⟨({ bids := plr, asks := b.asks, orders := alistErase (alistSet b.orders o2.order_id t2) o2.order_id, heap := alistSet b.heap t2 o2 }),
    hrun, hb1idx, ?_, ht1b1, ?_, ?_, ?_, ?_, ?_⟩
  · simp [getOrder, hb1idx, hb1heap]
  · exact cancelOrder_removes _ _ _ _ _ _ hb1idx hb1heap hp hside hrem
  · exact alistLookup_erase_self (alistSet_keys_nodup hnd)
  · simp [getOrder, alistLookup_erase_self (alistSet_keys_nodup hnd)]
  · by_cases hpp : p1 = p2
    · have h1q : t1 ∈ (alistLookup b.bids.levels p2).getD [] := hpp ▸ ht1
      have hne : (alistLookup b.bids.levels p2).getD [] ≠ [] :=
        fun hnil => by rw [hnil] at h1q; cases h1q
      show t1 ∈ (alistLookup plr.levels p1).getD []
      rw [hpp, hremself hne]
      exact h1q
    · show t1 ∈ (alistLookup plr.levels p1).getD []
      rw [hremother p1 hpp]
      exact ht1b1
  · exact cancelOrder_not_found _ _
      (alistLookup_erase_self (alistSet_keys_nodup hnd))

/-- Resting BUY GTC `id=x price=100 qty=1`, identity 1. -/
def c10Old : Order :=
  mkOrder "x" none Side.BUY OrderType.LIMIT (some 100) 1 TimeInForce.GTC 0 0 1

def c10Book : Book := (addOrder 100 Book.empty c10Old 1).book Book.empty

/-- Second order with the same id `x`, non-crossing, identity 2. -/
def c10New : Order :=
  mkOrder "x" none Side.BUY OrderType.LIMIT (some 90) 1 TimeInForce.GTC 0 1 2

/-- Witness for C10: the duplicate-id behaviour at a concrete input. -/
theorem c10_duplicate_ids_shadow_older_order_witness :
    ∃ b1 b2,
      addOrder 0 c10Book c10New 2 =
        MRes.ok [{ type := EventType.NEW, order_id := some c10New.order_id,
                   timestamp := some c10New.timestamp }] b1 ∧
      alistLookup b1.orders c10New.order_id = some 2 ∧
      getOrder b1 c10New.order_id = some c10New ∧
      1 ∈ (alistLookup b1.bids.levels 100).getD [] ∧
      cancelOrder b1 c10New.order_id =
        MRes.ok [{ type := EventType.CANCEL,
                   order_id := some c10New.order_id }] b2 ∧
      alistLookup b2.orders c10New.order_id = none ∧
      getOrder b2 c10New.order_id = none ∧
      1 ∈ (alistLookup b2.bids.levels 100).getD [] ∧
      cancelOrder b2 c10New.order_id =
        MRes.ok [{ type := EventType.REJECT, order_id := some c10New.order_id,
                   reason := some "ORDER_NOT_FOUND" }] b2 :=
  c10_duplicate_ids_shadow_older_order 0 c10Book c10Old c10New 1 2 100 90
    rfl rfl rfl (by decide) rfl (by decide) (by decide) (by decide)
    (by decide) (by decide) (by decide) (by decide) (by decide)

/-! ## Claim C3 infrastructure: trade price/quantity correctness -/

/-- Flattened queue tags of a levels association list. -/
def joinq (l : List (ℚ × List Nat)) : List Nat := (l.map Prod.snd).flatten

/-- The tags of all orders resting in one side's queues. -/
def tagsOf (pl : PriceLevels) : List Nat := joinq pl.levels

/-- Every queued tag maps, in the heap, to an order whose price is its
level's key (the basic well-formedness `add_order`/`remove_order`
maintain). -/
def LevelsCoherent (pl : PriceLevels) (heap : List (Nat × Order)) : Prop :=
  ∀ pq ∈ pl.levels, ∀ t ∈ pq.2, ∃ m ∈ alistLookup heap t, m.price = some pq.1

/-- No object appears twice across one side's queues. -/
def TagsNodup (pl : PriceLevels) : Prop := (tagsOf pl).Nodup

/-- Total quantity of the TRADE events in a list. -/
def tradeSum (evts : List Event) : ℚ :=
  (evts.filterMap fun e =>
    if e.type = EventType.TRADE then e.quantity else none).sum

/-- The per-trade property of claim C3 stated against the pre-call book
`b0`: every TRADE event in `evts` carries the resting price of an actual
pre-call maker (identified by `matched_order_id`) and the quantity
`min(taker_remaining_before, maker_remaining_before)`, where the taker's
remaining before the fill is `r` minus the quantities already traded
earlier in `evts`. -/
def TradesSpec (b0 : Book) (side : Side) (r : ℚ) (evts : List Event) : Prop :=
  ∀ l e rest, evts = l ++ e :: rest → e.type = EventType.TRADE →
    ∃ t m, t ∈ tagsOf (b0.makerSide side) ∧
      alistLookup b0.heap t = some m ∧
      e.matched_order_id = some m.order_id ∧
      e.price = m.price ∧
      e.quantity = some (min (r - tradeSum l) m.remaining_quantity)

theorem tradeSum_nil : tradeSum [] = 0 := rfl

theorem tradeSum_cons_trade {e : Event} {q : ℚ} (he : e.type = EventType.TRADE)
    (hq : e.quantity = some q) (l : List Event) :
    tradeSum (e :: l) = q + tradeSum l := by
  simp [tradeSum, List.filterMap_cons, he, hq]

theorem tradeSum_cons_nontrade {e : Event} (he : e.type ≠ EventType.TRADE)
    (l : List Event) : tradeSum (e :: l) = tradeSum l := by
  simp [tradeSum, List.filterMap_cons, he]

theorem tradesSpec_of_nontrade {b0 : Book} {side : Side} {r : ℚ}
    {evts : List Event} (h : ∀ e ∈ evts, e.type ≠ EventType.TRADE) :
    TradesSpec b0 side r evts := by
  intro l e rest hdec htr
  exact absurd htr (h e (hdec ▸ List.mem_append_right l (List.mem_cons_self e rest)))

theorem tradesSpec_cons_nontrade {b0 : Book} {side : Side} {r : ℚ}
    {e : Event} {evts : List Event} (he : e.type ≠ EventType.TRADE)
    (h : TradesSpec b0 side r evts) : TradesSpec b0 side r (e :: evts) := by
  intro l e' rest hdec htr
  cases l with
  | nil =>
    simp only [List.nil_append, List.cons.injEq] at hdec
    exact absurd (hdec.1 ▸ htr) he
  | cons x l' =>
    simp only [List.cons_append, List.cons.injEq] at hdec
    obtain ⟨hx, hdec'⟩ := hdec
    subst hx
    rw [tradeSum_cons_nontrade he]
    exact h l' e' rest hdec' htr

theorem tradesSpec_cons_trade {b0 : Book} {side : Side} {r q : ℚ}
    {e : Event} {evts : List Event} (he : e.type = EventType.TRADE)
    (hq : e.quantity = some q)
    (hΦ : ∃ t m, t ∈ tagsOf (b0.makerSide side) ∧
      alistLookup b0.heap t = some m ∧
      e.matched_order_id = some m.order_id ∧ e.price = m.price ∧
      e.quantity = some (min r m.remaining_quantity))
    (h : TradesSpec b0 side (r - q) evts) : TradesSpec b0 side r (e :: evts) := by
  intro l e' rest hdec htr
  cases l with
  | nil =>
    simp only [List.nil_append, List.cons.injEq] at hdec
    rw [← hdec.1]
    simpa [tradeSum_nil] using hΦ
  | cons x l' =>
    simp only [List.cons_append, List.cons.injEq] at hdec
    obtain ⟨hx, hdec'⟩ := hdec
    subst hx
    rw [tradeSum_cons_trade he hq]
    obtain ⟨t, m, h1, h2, h3, h4, h5⟩ := h l' e' rest hdec' htr
    refine ⟨t, m, h1, h2, h3, h4, ?_⟩
    rw [h5]
    ring_nf

/-- A tag present in a queue found by lookup occurs in the flattened tags. -/
theorem mem_joinq_of_lookup {l : List (ℚ × List Nat)} {p : ℚ}
    {q : List Nat} {t : Nat} (hl : alistLookup l p = some q) (ht : t ∈ q) :
    t ∈ joinq l :=
  List.mem_flatten.mpr ⟨q, List.mem_map.mpr ⟨(p, q), alistLookup_mem hl, rfl⟩, ht⟩

/-- A tag present in a queue found by lookup is a resting tag. -/
theorem mem_tagsOf_of_lookup {pl : PriceLevels} {p : ℚ} {q : List Nat}
    {t : Nat} (hl : alistLookup pl.levels p = some q) (ht : t ∈ q) :
    t ∈ tagsOf pl :=
  mem_joinq_of_lookup hl ht

theorem mem_tagsOf_of_mem {pl : PriceLevels} {pq : ℚ × List Nat} {t : Nat}
    (hm : pq ∈ pl.levels) (ht : t ∈ pq.2) : t ∈ tagsOf pl :=
  List.mem_flatten.mpr ⟨pq.2, List.mem_map.mpr ⟨pq, hm, rfl⟩, ht⟩

theorem listRemoveFirst_sublist {α : Type} [DecidableEq α]
    {l l' : List α} {t : α} (h : listRemoveFirst l t = some l') :
    List.Sublist l' l := by
  induction l generalizing l' with
  | nil => simp [listRemoveFirst] at h
  | cons x xs ih =>
    by_cases hx : x = t
    · simp only [listRemoveFirst, if_pos hx] at h
      cases h
      exact List.sublist_cons_self x xs
    · simp only [listRemoveFirst, if_neg hx] at h
      cases hr : listRemoveFirst xs t with
      | none => rw [hr] at h; simp at h
      | some xs' =>
        rw [hr] at h
        simp only [Option.map_some', Option.some.injEq] at h
        cases h
        exact List.Sublist.cons₂ x (ih hr)

theorem joinq_set_sublist {l : List (ℚ × List Nat)} {p : ℚ}
    {q q' : List Nat} (hl : alistLookup l p = some q)
    (hsub : List.Sublist q' q) :
    List.Sublist (joinq (alistSet l p q')) (joinq l) := by
  induction l with
  | nil => simp [alistLookup] at hl
  | cons hd tl ih =>
    obtain ⟨k, v⟩ := hd
    by_cases hk : k = p
    · subst hk
      simp [alistLookup] at hl
      subst hl
      simp only [alistSet, if_pos rfl, joinq, List.map_cons, List.flatten_cons]
      exact List.Sublist.append hsub (List.Sublist.refl _)
    · simp only [alistLookup, if_neg hk] at hl
      simp only [alistSet, if_neg hk, joinq, List.map_cons, List.flatten_cons]
      exact List.Sublist.append (List.Sublist.refl v) (ih hl)

theorem joinq_erase_sublist (l : List (ℚ × List Nat)) (p : ℚ) :
    List.Sublist (joinq (alistErase l p)) (joinq l) := by
  induction l with
  | nil => simp [alistErase]
  | cons hd tl ih =>
    obtain ⟨k, v⟩ := hd
    by_cases hk : k = p
    · simp only [alistErase, if_pos hk, joinq, List.map_cons, List.flatten_cons]
      exact List.sublist_append_right v _
    · simp only [alistErase, if_neg hk, joinq, List.map_cons, List.flatten_cons]
      exact List.Sublist.append (List.Sublist.refl v) ih

theorem mem_alistSet_elim {α β : Type} [DecidableEq α]
    {l : List (α × β)} {k : α} {v : β} {x : α × β}
    (h : x ∈ alistSet l k v) : x ∈ l ∨ x = (k, v) := by
  induction l with
  | nil =>
    simp only [alistSet, List.mem_singleton] at h
    exact Or.inr h
  | cons hd tl ih =>
    obtain ⟨k₀, w⟩ := hd
    by_cases hk : k₀ = k
    · simp only [alistSet, if_pos hk, List.mem_cons] at h
      rcases h with h1 | h1
      · right
        rw [h1, hk]
      · exact Or.inl (List.mem_cons_of_mem _ h1)
    · simp only [alistSet, if_neg hk, List.mem_cons] at h
      rcases h with h1 | h1
      · exact Or.inl (List.mem_cons.mpr (Or.inl h1))
      · rcases ih h1 with h2 | h2
        · exact Or.inl (List.mem_cons_of_mem _ h2)
        · exact Or.inr h2

theorem mem_alistErase_sub {α β : Type} [DecidableEq α]
    {l : List (α × β)} {k : α} {x : α × β}
    (h : x ∈ alistErase l k) : x ∈ l := by
  induction l with
  | nil => simpa [alistErase] using h
  | cons hd tl ih =>
    obtain ⟨k₀, w⟩ := hd
    by_cases hk : k₀ = k
    · simp only [alistErase, if_pos hk] at h
      exact List.mem_cons_of_mem _ h
    · simp only [alistErase, if_neg hk, List.mem_cons] at h
      rcases h with h | h
      · exact List.mem_cons.mpr (Or.inl h)
      · exact List.mem_cons_of_mem _ (ih h)

/-- Shape of `remove_order`'s result: every level entry is an old entry or
the removal price's queue shrunk by one occurrence, and the flattened tags
form a sublist of the old ones. -/
theorem plRemoveOrder_entries (pl : PriceLevels) (p : ℚ) (t : Nat) :
    (∀ x ∈ ((pl.removeOrder p t).2).levels,
      x ∈ pl.levels ∨ ∃ q q', x = (p, q') ∧
        alistLookup pl.levels p = some q ∧ List.Sublist q' q) ∧
    List.Sublist (joinq ((pl.removeOrder p t).2).levels) (joinq pl.levels) := by
  unfold PriceLevels.removeOrder
  cases hl : alistLookup pl.levels p with
  | none => exact ⟨fun x hx => Or.inl hx, List.Sublist.refl _⟩
  | some q =>
    dsimp only
    cases hr : listRemoveFirst q t with
    | none => exact ⟨fun x hx => Or.inl hx, List.Sublist.refl _⟩
    | some q' =>
      dsimp only
      have hsub : List.Sublist q' q := listRemoveFirst_sublist hr
      by_cases hq0 : q' = []
      · subst hq0
        simp only [if_pos rfl]
        refine ⟨?_, ?_⟩
        · intro x hx
          simp only [apply_ite Prod.snd, apply_ite PriceLevels.levels,
            ite_self] at hx
          exact Or.inl (mem_alistErase_sub hx)
        · simp only [apply_ite Prod.snd, apply_ite PriceLevels.levels, ite_self]
          exact joinq_erase_sublist pl.levels p
      · simp only [if_neg hq0]
        refine ⟨?_, ?_⟩
        · intro x hx
          simp only [apply_ite Prod.snd, apply_ite PriceLevels.levels,
            ite_self] at hx
          rcases mem_alistSet_elim hx with h1 | h1
          · exact Or.inl h1
          · exact Or.inr ⟨q, q', h1, rfl, hsub⟩
        · simp only [apply_ite Prod.snd, apply_ite PriceLevels.levels, ite_self]
          exact joinq_set_sublist hl hsub

/-- A first-position tag of a queue does not survive replacing that queue
by its tail, when no tag repeats across the side. -/
theorem not_mem_joinq_set_tail {l : List (ℚ × List Nat)} {p : ℚ}
    {t : Nat} {q' : List Nat} (hnd : (joinq l).Nodup)
    (hl : alistLookup l p = some (t :: q')) :
    t ∉ joinq (alistSet l p q') := by
  induction l with
  | nil => simp [alistLookup] at hl
  | cons hd tl ih =>
    obtain ⟨k, v⟩ := hd
    simp only [joinq, List.map_cons, List.flatten_cons] at hnd
    by_cases hk : k = p
    · subst hk
      simp [alistLookup] at hl
      subst hl
      simp only [alistSet, if_pos rfl, joinq, List.map_cons, List.flatten_cons]
      have hnd' := hnd
      rw [List.nodup_append] at hnd'
      intro hmem
      rcases List.mem_append.mp hmem with h | h
      · exact (List.nodup_cons.mp hnd'.1).1 h
      · exact hnd'.2.2 (List.mem_cons_self t q') h
    · simp only [alistLookup, if_neg hk] at hl
      simp only [alistSet, if_neg hk, joinq, List.map_cons, List.flatten_cons]
      rw [List.nodup_append] at hnd
      intro hmem
      have ht : t ∈ joinq tl := mem_joinq_of_lookup hl (List.mem_cons_self _ _)
      rcases List.mem_append.mp hmem with h | h
      · exact hnd.2.2 h ht
      · exact ih hnd.2.1 hl h

theorem makerSide_setMakerSide (b : Book) (side : Side) (pl : PriceLevels) :
    (b.setMakerSide side pl).makerSide side = pl := by cases side <;> rfl

theorem heap_setMakerSide (b : Book) (side : Side) (pl : PriceLevels) :
    (b.setMakerSide side pl).heap = b.heap := by cases side <;> rfl

theorem makerSide_setHeap (b : Book) (side : Side) (h : List (Nat × Order)) :
    ({ b with heap := h } : Book).makerSide side = b.makerSide side := by
  cases side <;> rfl

theorem makerSide_setOrders (b : Book) (side : Side)
    (os : List (String × Nat)) :
    ({ b with orders := os } : Book).makerSide side = b.makerSide side := by
  cases side <;> rfl

theorem heap_setOrders (b : Book) (os : List (String × Nat)) :
    ({ b with orders := os } : Book).heap = b.heap := rfl

theorem nontrade_pair {e1 e2 : Event} (h1 : e1.type ≠ EventType.TRADE)
    (h2 : e2.type ≠ EventType.TRADE) :
    ∀ e ∈ [e1] ++ [e2], e.type ≠ EventType.TRADE := by
  intro e he
  rcases List.mem_append.mp he with h | h <;>
    simp only [List.mem_singleton] at h <;> subst h <;> assumption

/-- The residual-handling tail of `_match_against_book` appends only
non-TRADE events (NEW, CANCEL, REJECT, DONE) to the event list — or
raises. -/
theorem matchFinish_events (b : Book) (taker : Order) (tag : Nat)
    (side : Side) (rem tot : ℚ) (evts : List Event) :
    matchFinish b taker tag side rem tot evts = MRes.raised ∨
    ∃ extra, (matchFinish b taker tag side rem tot evts).events =
        evts ++ extra ∧ ∀ e ∈ extra, e.type ≠ EventType.TRADE := by
  unfold matchFinish
  by_cases h1 : rem > 0
  · rw [if_pos h1]
    cases htif : taker.time_in_force with
    | GTC =>
      dsimp only
      cases ha : (b.ownSide side).addOrder tag taker.price with
      | none => exact Or.inl rfl
      | some pl' =>
        dsimp only
        rw [if_neg (not_le.mpr h1)]
        refine Or.inr ⟨_, rfl, ?_⟩
        intro e he
        simp only [List.mem_singleton] at he
        subst he
        simp
    | IOC =>
      dsimp only
      split
      · refine Or.inr ⟨_, by dsimp only [MRes.events]; rw [List.append_assoc], ?_⟩
        exact nontrade_pair (by simp) (by simp)
      · refine Or.inr ⟨_, rfl, ?_⟩
        intro e he
        simp only [List.mem_singleton] at he
        subst he
        simp
    | FOK =>
      dsimp only
      by_cases ht0 : tot = 0
      · rw [if_pos ht0]
        dsimp only
        split
        · refine Or.inr ⟨_, by dsimp only [MRes.events]; rw [List.append_assoc], ?_⟩
          exact nontrade_pair (by simp) (by simp)
        · refine Or.inr ⟨_, rfl, ?_⟩
          intro e he
          simp only [List.mem_singleton] at he
          subst he
          simp
      · rw [if_neg ht0]
        dsimp only
        split
        · refine Or.inr ⟨_, by dsimp only [MRes.events]; rw [List.append_assoc], ?_⟩
          exact nontrade_pair (by simp) (by simp)
        · refine Or.inr ⟨_, rfl, ?_⟩
          intro e he
          simp only [List.mem_singleton] at he
          subst he
          simp
  · rw [if_neg h1]
    dsimp only
    split
    · refine Or.inr ⟨_, rfl, ?_⟩
      intro e he
      simp only [List.mem_singleton] at he
      subst he
      simp
    · exact Or.inr ⟨[], by simp [MRes.events], by simp⟩

/-- Once the taker's remaining quantity is non-positive, the matching loop
performs no further fills: it falls through to `matchFinish` and appends
only non-TRADE events (or raises / runs out of fuel). -/
theorem matchLoop_no_fill :
    ∀ (fuel : Nat) (phase : Phase) (b : Book) (taker : Order) (tag : Nat)
      (side : Side) (rem tot : ℚ) (acc : List Event), rem ≤ 0 →
    matchLoop fuel phase b taker tag side rem tot acc = MRes.raised ∨
    ∃ extra, (matchLoop fuel phase b taker tag side rem tot acc).events =
        acc ++ extra ∧ ∀ e ∈ extra, e.type ≠ EventType.TRADE := by
  intro fuel
  induction fuel with
  | zero =>
    intro phase b taker tag side rem tot acc hrem
    exact Or.inr ⟨[], by simp [matchLoop, MRes.events], by simp⟩
  | succ n ih =>
    intro phase b taker tag side rem tot acc hrem
    cases phase with
    | outer =>
      rw [matchLoop]
      rw [if_neg (fun hc => absurd hc.1 (not_lt.mpr hrem))]
      exact matchFinish_events b taker tag side rem tot acc
    | inner bp =>
      rw [matchLoop]
      split
      · exact ih Phase.outer b taker tag side rem tot acc hrem
      · rw [if_pos (not_lt.mpr hrem)]
        exact ih Phase.outer b taker tag side rem tot acc hrem

theorem orders_setMakerSide (b : Book) (side : Side) (pl : PriceLevels) :
    (b.setMakerSide side pl).orders = b.orders := by cases side <;> rfl

theorem levelsCoherent_set_tail {pl : PriceLevels}
    {heap : List (Nat × Order)} {p : ℚ} {mt : Nat} {qrest : List Nat}
    (hl : alistLookup pl.levels p = some (mt :: qrest))
    (hco : LevelsCoherent pl heap) :
    LevelsCoherent { pl with levels := alistSet pl.levels p qrest } heap := by
  intro pq hm t ht
  rcases mem_alistSet_elim hm with h | h
  · exact hco pq h t ht
  · subst h
    exact hco (p, mt :: qrest) (alistLookup_mem hl) t (List.mem_cons_of_mem _ ht)

theorem levelsCoherent_removeOrder {pl : PriceLevels}
    {heap : List (Nat × Order)} (p : ℚ) (t0 : Nat)
    (hco : LevelsCoherent pl heap) :
    LevelsCoherent ((pl.removeOrder p t0).2) heap := by
  intro pq hm u hu
  rcases (plRemoveOrder_entries pl p t0).1 pq hm with h | ⟨q, q2, hpq, hl, hsubq⟩
  · exact hco pq h u hu
  · subst hpq
    exact hco (p, q) (alistLookup_mem hl) u (hsubq.subset hu)

theorem levelsCoherent_heapSet {pl : PriceLevels}
    {heap : List (Nat × Order)} {mt : Nat} {m m' : Order}
    (hm : alistLookup heap mt = some m) (hp : m'.price = m.price)
    (hco : LevelsCoherent pl heap) :
    LevelsCoherent pl (alistSet heap mt m') := by
  intro pq hmem t ht
  obtain ⟨m₀, hm₀, hpr⟩ := hco pq hmem t ht
  rw [Option.mem_def] at hm₀
  by_cases hT : t = mt
  · subst hT
    have hmm : m = m₀ := by
      rw [hm, Option.some.injEq] at hm₀
      exact hm₀
    refine ⟨m', ?_, ?_⟩
    · rw [Option.mem_def, alistLookup_set_self]
    · rw [hp, hmm]
      exact hpr
  · refine ⟨m₀, ?_, hpr⟩
    rw [Option.mem_def, alistLookup_set_ne _ _ _ _ hT]
    exact hm₀

/-- Lifting a recursion result across one full-fill step: prefix the TRADE
and the maker's DONE events. -/
theorem compose_trade (b0 : Book) (side : Side) (M : MRes) (acc : List Event)
    (e1 e2 : Event) (rem q r' : ℚ)
    (he1 : e1.type = EventType.TRADE) (hq1 : e1.quantity = some q)
    (hphi : ∃ t m, t ∈ tagsOf (b0.makerSide side) ∧
      alistLookup b0.heap t = some m ∧
      e1.matched_order_id = some m.order_id ∧ e1.price = m.price ∧
      e1.quantity = some (min rem m.remaining_quantity))
    (he2 : e2.type ≠ EventType.TRADE)
    (h : M = MRes.raised ∨ ∃ extra, M.events = (acc ++ [e1, e2]) ++ extra ∧
      TradesSpec b0 side r' extra)
    (hr' : r' = rem - q) :
    M = MRes.raised ∨ ∃ extra, M.events = acc ++ extra ∧
      TradesSpec b0 side rem extra := by
  rcases h with h | ⟨extra, he, hs⟩
  · exact Or.inl h
  · refine Or.inr ⟨[e1, e2] ++ extra, ?_, ?_⟩
    · rw [he, List.append_assoc]
    · subst hr'
      exact tradesSpec_cons_trade he1 hq1 hphi (tradesSpec_cons_nontrade he2 hs)

/-- Lifting a recursion result across a partial-fill step: prefix the
TRADE; the continuation emits no further trades. -/
theorem compose_trade_last (b0 : Book) (side : Side) (M : MRes)
    (acc : List Event) (e1 : Event) (rem q : ℚ)
    (he1 : e1.type = EventType.TRADE) (hq1 : e1.quantity = some q)
    (hphi : ∃ t m, t ∈ tagsOf (b0.makerSide side) ∧
      alistLookup b0.heap t = some m ∧
      e1.matched_order_id = some m.order_id ∧ e1.price = m.price ∧
      e1.quantity = some (min rem m.remaining_quantity))
    (h : M = MRes.raised ∨ ∃ extra, M.events = (acc ++ [e1]) ++ extra ∧
      ∀ e ∈ extra, e.type ≠ EventType.TRADE) :
    M = MRes.raised ∨ ∃ extra, M.events = acc ++ extra ∧
      TradesSpec b0 side rem extra := by
  rcases h with h | ⟨extra, he, hn⟩
  · exact Or.inl h
  · refine Or.inr ⟨[e1] ++ extra, ?_, ?_⟩
    · rw [he, List.append_assoc]
    · exact tradesSpec_cons_trade he1 hq1 hphi (tradesSpec_of_nontrade hn)

/-- Main loop invariant for claim C3: starting from any state whose
maker-side queues are a (heap-value-preserving) restriction of the
pre-call book `b0`'s, every TRADE event appended by the matching loop
satisfies `TradesSpec` against `b0` — the maker's own resting price and
`min` of the two remaining quantities just before the fill. -/
theorem matchLoop_tradesSpec (b0 : Book) (side : Side) :
    ∀ (fuel : Nat) (phase : Phase) (b : Book) (taker : Order) (tag : Nat)
      (rem tot : ℚ) (acc : List Event),
      (∀ t, t ∈ tagsOf (b.makerSide side) → t ∈ tagsOf (b0.makerSide side)) →
      (∀ t, t ∈ tagsOf (b.makerSide side) →
        alistLookup b.heap t = alistLookup b0.heap t) →
      LevelsCoherent (b.makerSide side) b.heap →
      TagsNodup (b.makerSide side) →
    matchLoop fuel phase b taker tag side rem tot acc = MRes.raised ∨
    ∃ extra, (matchLoop fuel phase b taker tag side rem tot acc).events =
        acc ++ extra ∧ TradesSpec b0 side rem extra := by
  intro fuel
  induction fuel with
  | zero =>
    intro phase b taker tag rem tot acc _ _ _ _
    exact Or.inr ⟨[], by simp [matchLoop, MRes.events],
      tradesSpec_of_nontrade (by simp)⟩
  | succ n ih =>
    intro phase b taker tag rem tot acc hsub hheap hco hnd
    cases phase with
    | outer =>
      rw [matchLoop]
      by_cases hcond : rem > 0 ∧ (b.makerSide side).prices ≠ []
      · rw [if_pos hcond]
        cases hgb : (b.makerSide side).getBest with
        | none =>
          rcases matchFinish_events b taker tag side rem tot acc with h | ⟨ex, he, hn⟩
          · exact Or.inl h
          · exact Or.inr ⟨ex, he, tradesSpec_of_nontrade hn⟩
        | some pr =>
          obtain ⟨bp, qb⟩ := pr
          dsimp only
          by_cases hpl : taker.type = OrderType.LIMIT ∧
              (∃ tp, taker.price = some tp ∧
                ((side = Side.BUY ∧ tp < bp) ∨ (side = Side.SELL ∧ tp > bp)))
          · rw [if_pos hpl]
            rcases matchFinish_events b taker tag side rem tot acc with h | ⟨ex, he, hn⟩
            · exact Or.inl h
            · exact Or.inr ⟨ex, he, tradesSpec_of_nontrade hn⟩
          · rw [if_neg hpl]
            exact ih (Phase.inner bp) b taker tag rem tot acc hsub hheap hco hnd
      · rw [if_neg hcond]
        rcases matchFinish_events b taker tag side rem tot acc with h | ⟨ex, he, hn⟩
        · exact Or.inl h
        · exact Or.inr ⟨ex, he, tradesSpec_of_nontrade hn⟩
    | inner bp =>
      rw [matchLoop]
      cases hql : alistLookup (b.makerSide side).levels bp with
      | none =>
        exact ih Phase.outer b taker tag rem tot acc hsub hheap hco hnd
      | some qq =>
        cases qq with
        | nil => exact ih Phase.outer b taker tag rem tot acc hsub hheap hco hnd
        | cons mt qrest =>
          dsimp only [Option.getD_some]
          by_cases hr : ¬ rem > 0
          · rw [if_pos hr]
            exact ih Phase.outer b taker tag rem tot acc hsub hheap hco hnd
          · rw [if_neg hr]
            cases hlk : alistLookup b.heap mt with
            | none => exact Or.inl rfl
            | some maker =>
              dsimp only
              have hmt_mem : mt ∈ tagsOf (b.makerSide side) :=
                mem_joinq_of_lookup hql (List.mem_cons_self _ _)
              have hmt0 : alistLookup b0.heap mt = some maker := by
                rw [← hheap mt hmt_mem]
                exact hlk
              have hmprice : maker.price = some bp := by
                obtain ⟨m', hm', hp'⟩ :=
                  hco (bp, mt :: qrest) (alistLookup_mem hql) mt
                    (List.mem_cons_self _ _)
                rw [Option.mem_def, hlk, Option.some.injEq] at hm'
                rw [hm']
                exact hp'
              have hphi : ∃ t m, t ∈ tagsOf (b0.makerSide side) ∧
                  alistLookup b0.heap t = some m ∧
                  (some maker.order_id : Option String) = some m.order_id ∧
                  (some bp : Option ℚ) = m.price ∧
                  (some (qmin rem maker.remaining_quantity) : Option ℚ) =
                    some (min rem m.remaining_quantity) := by
                refine ⟨mt, maker, hsub mt hmt_mem, hmt0, rfl, hmprice.symm, ?_⟩
                rw [qmin_eq]
              by_cases hstp : taker.hasFlag STP = true ∧
                  taker.client_id ≠ none ∧ maker.client_id = taker.client_id
              · rw [if_pos hstp]
                by_cases hlen : (mt :: qrest).length > 1
                · rw [if_pos hlen]
                  apply ih (Phase.inner bp) _ taker tag rem tot acc
                  · intro t ht
                    rw [makerSide_setMakerSide] at ht
                    exact hsub t
                      ((joinq_set_sublist hql (List.sublist_cons_self mt qrest)).subset ht)
                  · intro t ht
                    rw [makerSide_setMakerSide] at ht
                    rw [heap_setMakerSide]
                    exact hheap t
                      ((joinq_set_sublist hql (List.sublist_cons_self mt qrest)).subset ht)
                  · rw [makerSide_setMakerSide, heap_setMakerSide]
                    exact levelsCoherent_set_tail hql hco
                  · rw [TagsNodup, makerSide_setMakerSide]
                    exact (joinq_set_sublist hql
                      (List.sublist_cons_self mt qrest)).nodup hnd
                · rw [if_neg hlen]
                  exact ih Phase.outer b taker tag rem tot acc hsub hheap hco hnd
              · rw [if_neg hstp]
                by_cases hfull :
                    qsub maker.remaining_quantity (qmin rem maker.remaining_quantity) ≤ 0
                · rw [if_pos hfull]
                  simp only [orders_setMakerSide]
                  by_cases hdel : (alistLookup b.orders maker.order_id).isSome = true
                  · rw [if_pos hdel]
                    refine compose_trade b0 side _ acc _ _ rem _ _ rfl rfl hphi
                      (by simp)
                      (ih (Phase.inner bp) _ _ tag _ _ _ ?_ ?_ ?_ ?_)
                      (by rw [qsub_eq])
                    · intro t ht
                      rw [makerSide_setOrders, makerSide_setMakerSide] at ht
                      have ht' := ((plRemoveOrder_entries _ bp mt).2.subset ht)
                      exact hsub t
                        ((joinq_set_sublist hql
                          (List.sublist_cons_self mt qrest)).subset ht')
                    · intro t ht
                      rw [makerSide_setOrders, makerSide_setMakerSide] at ht
                      have hmt_gone : t ≠ mt := by
                        intro hteq
                        subst hteq
                        exact not_mem_joinq_set_tail hnd hql
                          ((plRemoveOrder_entries _ bp t).2.subset ht)
                      have ht' := ((plRemoveOrder_entries _ bp mt).2.subset ht)
                      have ht'' := (joinq_set_sublist hql
                        (List.sublist_cons_self mt qrest)).subset ht'
                      rw [heap_setOrders, heap_setMakerSide]
                      rw [alistLookup_set_ne _ _ _ _ hmt_gone,
                        alistLookup_set_ne _ _ _ _ hmt_gone]
                      exact hheap t ht''
                    · rw [makerSide_setOrders, makerSide_setMakerSide,
                        heap_setOrders, heap_setMakerSide, makerSide_setHeap]
                      refine levelsCoherent_removeOrder bp mt ?_
                      refine levelsCoherent_set_tail hql ?_
                      refine levelsCoherent_heapSet (alistLookup_set_self _ _ _) rfl ?_
                      exact levelsCoherent_heapSet hlk rfl hco
                    · rw [TagsNodup, makerSide_setOrders, makerSide_setMakerSide]
                      refine ((plRemoveOrder_entries _ bp mt).2.nodup ?_)
                      exact (joinq_set_sublist hql
                        (List.sublist_cons_self mt qrest)).nodup hnd
                  · rw [if_neg hdel]
                    exact Or.inl rfl
                · rw [if_neg hfull]
                  have hfq : qmin rem maker.remaining_quantity = rem := by
                    rw [qsub_eq, qmin_eq] at hfull
                    rw [qmin_eq]
                    rcases le_total rem maker.remaining_quantity with h | h
                    · exact min_eq_left h
                    · exfalso
                      rw [min_eq_right h] at hfull
                      simp at hfull
                  have hrem0 : qsub rem (qmin rem maker.remaining_quantity) ≤ 0 := by
                    rw [hfq, qsub_eq]
                    simp
                  exact compose_trade_last b0 side _ acc _ rem _ rfl rfl hphi
                    (matchLoop_no_fill n (Phase.inner bp) _ _ tag side _ _ _ hrem0)

/-- The no-match admission branch emits only non-TRADE events (REJECT,
NEW, CANCEL) — or raises. -/
theorem limitRest_nontrade (b : Book) (o : Order) (tag : Nat) (p : ℚ)
    (bestOpp : Option ℚ) (crosses : ℚ → Prop) [DecidablePred crosses] :
    limitRest b o tag p bestOpp crosses = MRes.raised ∨
    ∀ e ∈ (limitRest b o tag p bestOpp crosses).events,
      e.type ≠ EventType.TRADE := by
  rw [limitRest]
  cases htif : o.time_in_force with
  | GTC =>
    dsimp only
    by_cases hpo : (∃ bp, bestOpp = some bp ∧ crosses bp) ∧
        o.hasFlag POST_ONLY = true
    · rw [if_pos hpo]
      refine Or.inr ?_
      intro e he
      simp only [MRes.events, List.mem_singleton] at he
      subst he
      simp
    · rw [if_neg hpo]
      cases hpl : (b.ownSide o.side).addOrder tag o.price with
      | none => exact Or.inl rfl
      | some pl' =>
        dsimp only
        refine Or.inr ?_
        intro e he
        simp only [MRes.events, List.mem_singleton] at he
        subst he
        simp
  | IOC =>
    dsimp only
    refine Or.inr ?_
    intro e he
    simp only [MRes.events, List.mem_singleton] at he
    subst he
    simp
  | FOK =>
    dsimp only
    refine Or.inr ?_
    intro e he
    simp only [MRes.events, List.mem_singleton] at he
    subst he
    simp

/-- `_match_against_book` satisfies the per-trade property against its
input book: the FOK-reject branch emits a single REJECT, and the matching
loop is covered by `matchLoop_tradesSpec` with reflexive invariants. -/
theorem matchAgainstBook_tradesSpec (fuel : Nat) (b : Book) (o : Order)
    (tag : Nat) (side : Side)
    (hco : LevelsCoherent (b.makerSide side) b.heap)
    (hnd : TagsNodup (b.makerSide side)) :
    matchAgainstBook fuel b o tag side = MRes.raised ∨
    TradesSpec b side o.remaining_quantity
      (matchAgainstBook fuel b o tag side).events := by
  have hloop := matchLoop_tradesSpec b side fuel Phase.outer b o tag
    o.remaining_quantity 0 [] (fun t ht => ht) (fun t _ => rfl) hco hnd
  rw [matchAgainstBook]
  dsimp only
  by_cases hfok : o.time_in_force = TimeInForce.FOK
  · rw [if_pos hfok]
    by_cases hav : fokAvailable b.heap side o.price o.remaining_quantity
        (b.makerSide side).levels 0 < o.remaining_quantity
    · rw [if_pos hav]
      refine Or.inr (tradesSpec_of_nontrade ?_)
      intro e he
      simp only [MRes.events, List.mem_singleton] at he
      subst he
      simp
    · rw [if_neg hav]
      rcases hloop with h | ⟨extra, he, hts⟩
      · exact Or.inl h
      · right
        rw [he, List.nil_append]
        exact hts
  · rw [if_neg hfok]
    rcases hloop with h | ⟨extra, he, hts⟩
    · exact Or.inl h
    · right
      rw [he, List.nil_append]
      exact hts

/-- `add_order` satisfies the per-trade property: the admission-reject
branches and the no-cross LIMIT branches emit only non-TRADE events and
the matching paths are covered by `matchAgainstBook_tradesSpec`. -/
theorem addOrder_tradesSpec (fuel : Nat) (b : Book) (o : Order) (tag : Nat)
    (hco : LevelsCoherent (b.makerSide o.side) b.heap)
    (hnd : TagsNodup (b.makerSide o.side)) :
    addOrder fuel b o tag = MRes.raised ∨
    TradesSpec b o.side o.remaining_quantity (addOrder fuel b o tag).events := by
  rw [addOrder]
  by_cases h1 : o.quantity ≤ 0
  · rw [if_pos h1]
    refine Or.inr (tradesSpec_of_nontrade ?_)
    intro e he
    simp only [MRes.events, List.mem_singleton] at he
    subst he
    simp
  · rw [if_neg h1]
    by_cases h2 : o.type = OrderType.LIMIT ∧ o.price = none
    · rw [if_pos h2]
      refine Or.inr (tradesSpec_of_nontrade ?_)
      intro e he
      simp only [MRes.events, List.mem_singleton] at he
      subst he
      simp
    · rw [if_neg h2]
      by_cases h3 : o.type = OrderType.LIMIT ∧ (∃ p, o.price = some p ∧ p ≤ 0)
      · rw [if_pos h3]
        refine Or.inr (tradesSpec_of_nontrade ?_)
        intro e he
        simp only [MRes.events, List.mem_singleton] at he
        subst he
        simp
      · rw [if_neg h3]
        cases hty : o.type with
        | MARKET =>
          dsimp only
          exact matchAgainstBook_tradesSpec fuel b o tag o.side hco hnd
        | LIMIT =>
          dsimp only
          rw [matchLimitOrder]
          cases hside : o.side with
          | BUY =>
            rw [hside] at hco hnd
            dsimp only
            cases hp : o.price with
            | none => exact Or.inl rfl
            | some p =>
              dsimp only
              cases hba : PriceLevels.getBest b.asks with
              | none =>
                dsimp only
                rcases limitRest_nontrade b o tag p none
                    (fun bp => p ≥ bp) with h | hn
                · exact Or.inl h
                · exact Or.inr (tradesSpec_of_nontrade hn)
              | some pr =>
                obtain ⟨ap, qa⟩ := pr
                dsimp only
                by_cases hlt : p < ap
                · rw [if_pos hlt]
                  rcases limitRest_nontrade b o tag p (some ap)
                      (fun bp => p ≥ bp) with h | hn
                  · exact Or.inl h
                  · exact Or.inr (tradesSpec_of_nontrade hn)
                · rw [if_neg hlt]
                  exact matchAgainstBook_tradesSpec fuel b o tag Side.BUY hco hnd
          | SELL =>
            rw [hside] at hco hnd
            dsimp only
            cases hp : o.price with
            | none => exact Or.inl rfl
            | some p =>
              dsimp only
              cases hbb : PriceLevels.getBest b.bids with
              | none =>
                dsimp only
                rcases limitRest_nontrade b o tag p none
                    (fun bp => p ≤ bp) with h | hn
                · exact Or.inl h
                · exact Or.inr (tradesSpec_of_nontrade hn)
              | some pr =>
                obtain ⟨bp0, qb⟩ := pr
                dsimp only
                by_cases hgt : p > bp0
                · rw [if_pos hgt]
                  rcases limitRest_nontrade b o tag p (some bp0)
                      (fun bp => p ≤ bp) with h | hn
                  · exact Or.inl h
                  · exact Or.inr (tradesSpec_of_nontrade hn)
                · rw [if_neg hgt]
                  exact matchAgainstBook_tradesSpec fuel b o tag Side.SELL hco hnd


/-- Executable check for `LevelsCoherent`. -/
def levelsCoherentB (pl : PriceLevels) (heap : List (Nat × Order)) : Bool :=
  pl.levels.all fun pq => pq.2.all fun t =>
    match alistLookup heap t with
    | some m => decide (m.price = some pq.1)
    | none => false

theorem levelsCoherent_of_B {pl : PriceLevels} {heap : List (Nat × Order)}
    (h : levelsCoherentB pl heap = true) : LevelsCoherent pl heap := by
  intro pq hm t ht
  have h1 := (List.all_eq_true.mp h) pq hm
  have h2 := (List.all_eq_true.mp h1) t ht
  cases hl : alistLookup heap t with
  | none =>
    rw [hl] at h2
    exact (Bool.false_ne_true h2).elim
  | some m =>
    rw [hl] at h2
    exact ⟨m, Option.mem_def.mpr rfl, of_decide_eq_true h2⟩

/-- Claim C3 (confirmed): whenever `add_order` returns (does not raise),
every TRADE event it emitted carries the matched maker's own resting
price and the quantity `min(taker_remaining_before,
maker_remaining_before)` — the taker's remaining before the fill being
the submitted remaining quantity minus the quantities of the TRADEs
emitted earlier in the same call.  The hypotheses are the book's
structural invariants: every tag queued on the taker-opposite side
resolves in the heap to an order resting at its level's price, and no
object is queued twice. -/
theorem c3_trade_price_and_quantity (fuel : Nat) (b : Book) (o : Order)
    (tag : Nat)
    (hco : LevelsCoherent (b.makerSide o.side) b.heap)
    (hnd : TagsNodup (b.makerSide o.side))
    (hok : addOrder fuel b o tag ≠ MRes.raised)
    (l : List Event) (e : Event) (rest : List Event)
    (hdec : (addOrder fuel b o tag).events = l ++ e :: rest)
    (htr : e.type = EventType.TRADE) :
    ∃ t m, t ∈ tagsOf (b.makerSide o.side) ∧
      alistLookup b.heap t = some m ∧
      e.matched_order_id = some m.order_id ∧
      e.price = m.price ∧
      e.quantity = some (min (o.remaining_quantity - tradeSum l)
        m.remaining_quantity) := by
  rcases addOrder_tradesSpec fuel b o tag hco hnd with h | hts
  · exact absurd h hok
  · exact hts l e rest hdec htr

/-- Witness for C3: the crossing scenario of §8 — book holds SELL
`sell1 price=100 qty=1`, a BUY `price=100 qty=1` is submitted; the TRADE
emitted matches `sell1` at price 100 for quantity `min(1 - 0, 1) = 1`. -/
theorem c3_trade_price_and_quantity_witness :
    ∃ t m, t ∈ tagsOf (c1Book.makerSide c1Buy.side) ∧
      alistLookup c1Book.heap t = some m ∧
      (some "sell1" : Option String) = some m.order_id ∧
      (some (100 : ℚ) : Option ℚ) = m.price ∧
      (some (1 : ℚ) : Option ℚ) =
        some (min (c1Buy.remaining_quantity - tradeSum [])
          m.remaining_quantity) :=
  c3_trade_price_and_quantity 100 c1Book c1Buy 2
    (levelsCoherent_of_B (by decide))
    (by show (tagsOf (c1Book.makerSide c1Buy.side)).Nodup
        decide)
    (by decide)
    [] { type := EventType.TRADE, order_id := some "buy1",
         matched_order_id := some "sell1", price := some 100,
         quantity := some 1, timestamp := some 1 }
    [{ type := EventType.DONE, order_id := some "sell1",
       timestamp := some 1 },
     { type := EventType.DONE, order_id := some "buy1",
       timestamp := some 1 }]
    (by decide) rfl

end Lob
